import Mathlib

/-!
Verification of the signalJourney repository: a shallow embedding of the
parser-output normalizer (`src/mcp-server/src/services/codeParser/normalizer.ts`),
the code-parser service and factory (`service.ts`, `parserFactory.ts`), the
top-level JSON-schema constraints (`signalJourney.schema.json`), and the
pipeline-document graph validator specified in the design document
(components 4.2, 4.3, 4.5), together with theorems settling the frozen claims.

JavaScript value coercion is embedded explicitly: `||` chains are modelled by
the `jsOr*` helpers (falsy values `""`, `0`, `false`, `null`/`undefined`
fall through), and `??` chains by `jsNullish` (only `null`/`undefined` fall
through).
-/

set_option maxRecDepth 4096

namespace SignalJourney

/-- JS nullish coalescing `a ?? b`: only null/undefined fall through. -/
def jsNullish {α : Type} (a b : Option α) : Option α :=
  match a with
  | some x => some x
  | none => b

/-- JS `a || b` for possibly-absent strings: `""` and absence are falsy. -/
def jsOrStrO (a b : Option String) : Option String :=
  match a with
  | some s => if s = "" then b else some s
  | none => b

/-- JS `a || b` where `b` is a present string default. -/
def jsOrStr (a : Option String) (b : String) : String :=
  match a with
  | some s => if s = "" then b else s
  | none => b

/-- JS `a || b` for possibly-absent booleans: `false` and absence are falsy. -/
def jsOrBoolO (a b : Option Bool) : Option Bool :=
  match a with
  | some x => if x then some x else b
  | none => b

/-- JS `a || b` for possibly-absent numbers: `0` and absence are falsy. -/
def jsOrNatO (a b : Option Nat) : Option Nat :=
  match a with
  | some n => if n = 0 then b else some n
  | none => b

/-- JS `a || b` with a present number default. -/
def jsOrNat (a : Option Nat) (b : Nat) : Nat :=
  match a with
  | some n => if n = 0 then b else n
  | none => b

/-- JS `a || b` for numeric values modelled as rationals (confidence scores). -/
def jsOrRat (a : Option ℚ) (b : ℚ) : ℚ :=
  match a with
  | some q => if q = 0 then b else q
  | none => b

/-- Truthiness of a possibly-absent boolean flag (used in `if` tests). -/
def truthyFlag (a : Option Bool) : Bool :=
  match a with
  | some b => b
  | none => false

/-- `types.ts` `SupportedLanguage`. -/
inductive SupportedLanguage
  | python
  | matlab
  | unknown
deriving DecidableEq, Repr

/-- `SupportedLanguage.toString()`: the enum's string value. -/
def SupportedLanguage.toStr : SupportedLanguage → String
  | .python => "python"
  | .matlab => "matlab"
  | .unknown => "unknown"

/-- `types.ts` `ParameterStyle`. -/
inductive ParameterStyle
  | positional
  | named
  | keyword_only
  | positional_only
  | variadic_positional
  | variadic_keyword
  | name_value_pair
  | matlab_vararg
deriving DecidableEq, Repr

/-- A raw JS value appearing as a positional/keyword argument value: either a
string (taken as is) or any other JSON value together with its
`JSON.stringify` image. -/
inductive RawValue
  | vstr (s : String)
  | vother (stringified : String)
deriving DecidableEq, Repr

/-- `typeof value === 'string' ? value : JSON.stringify(value)`. -/
def RawValue.normalize : RawValue → String
  | .vstr s => s
  | .vother j => j

/-- A raw object-shaped parameter record: every field `normalizeParameters`
reads, each possibly absent. -/
structure RawParamObj where
  name : Option String := none
  position : Option Nat := none
  value : Option String := none
  isNamed : Option Bool := none
  is_named : Option Bool := none
  isDefault : Option Bool := none
  is_default : Option Bool := none
  inferredType : Option String := none
  inferred_type : Option String := none
  annotation : Option String := none
  defaultValue : Option String := none
  default_value : Option String := none
  isKeywordOnly : Option Bool := none
  is_keyword_only : Option Bool := none
  isPositionalOnly : Option Bool := none
  is_positional_only : Option Bool := none
  isVararg : Option Bool := none
  is_vararg : Option Bool := none
  isVariadic : Option Bool := none
  is_variadic : Option Bool := none
  isKwarg : Option Bool := none
  is_kwarg : Option Bool := none
deriving DecidableEq, Repr

/-- Accessor alias for the raw record's type-hint field. -/
def annotOf (o : RawParamObj) : Option String := RawParamObj.annotation o

/-- One element of an array-shaped parameter list: a bare string (legacy
format) or an object record. -/
inductive RawParameter
  | str (s : String)
  | obj (o : RawParamObj)
deriving DecidableEq, Repr

/-- The dynamic value passed to `normalizeParameters`: `null`, an array of
parameter records, an object (with optional `positional` array and optional
`keywords` map, insertion-ordered), or any other JS value carrying its
truthiness. -/
inductive RawJson
  | jnull
  | jarr (ps : List RawParameter)
  | jobj (positional : Option (List RawValue)) (keywords : Option (List (String × RawValue)))
  | jother (truthy : Bool)
deriving DecidableEq, Repr

/-- `types.ts` `IFunctionParameter`. -/
structure IFunctionParameter where
  name : Option String := none
  value : Option String := none
  position : Nat
  isNamed : Bool
  isDefault : Option Bool := none
  inferredType : Option String := none
  style : Option ParameterStyle := none
  annotation : Option String := none
  defaultValue : Option String := none
  isVariadic : Option Bool := none
deriving DecidableEq, Repr

/-- Accessor alias for the normalized parameter's type-hint field. -/
def paramAnnotOf (p : IFunctionParameter) : Option String :=
  IFunctionParameter.annotation p

/-- `Array.prototype.map`/`forEach` with the element index, starting at `i`. -/
def mapWithIndex {α β : Type} (f : Nat → α → β) : Nat → List α → List β
  | _, [] => []
  | i, x :: xs => f i x :: mapWithIndex f (i + 1) xs

namespace ParserOutputNormalizer

/-- The per-element body of the array branch of `normalizeParameters`
(normalizer.ts lines 252-300): a string element becomes a bare positional
entry; an object element is copied field-by-field with `??` fallbacks and its
`style` recomputed from the priority-ordered boolean flags. -/
def normalizeRawParameter (language : SupportedLanguage) (index : Nat) :
    RawParameter → IFunctionParameter
  | .str s =>
      { position := index
        value := some s
        isNamed := false }
  | .obj o =>
      let nb : Bool := (jsNullish o.isNamed o.is_named).getD false
      let base : IFunctionParameter :=
        { name := o.name
          position := o.position.getD index
          value := o.value
          isNamed := nb
          isDefault := jsNullish o.isDefault o.is_default
          inferredType := jsNullish (jsNullish o.inferredType o.inferred_type) (annotOf o)
          annotation := annotOf o
          defaultValue := jsNullish o.defaultValue o.default_value }
      if truthyFlag o.isKeywordOnly || truthyFlag o.is_keyword_only then
        { base with style := some ParameterStyle.keyword_only }
      else if truthyFlag o.isPositionalOnly || truthyFlag o.is_positional_only then
        { base with style := some ParameterStyle.positional_only }
      else if truthyFlag o.isVararg || truthyFlag o.is_vararg ||
          truthyFlag o.isVariadic || truthyFlag o.is_variadic then
        match language with
        | .python =>
            if truthyFlag o.isKwarg || truthyFlag o.is_kwarg then
              { base with isVariadic := some true, style := some ParameterStyle.variadic_keyword }
            else
              { base with isVariadic := some true, style := some ParameterStyle.variadic_positional }
        | .matlab =>
            { base with isVariadic := some true, style := some ParameterStyle.matlab_vararg }
        | .unknown =>
            { base with isVariadic := some true }
      else if nb && language == SupportedLanguage.matlab then
        { base with style := some ParameterStyle.name_value_pair }
      else if nb then
        { base with style := some ParameterStyle.named }
      else
        { base with style := some ParameterStyle.positional }

/-- `normalizeParameters` (normalizer.ts lines 220-305). The positional/
keywords branch fires when the value is a non-array object whose `positional`
field is truthy (any array is truthy); the array branch normalizes each
record in order; everything else yields `[]`. -/
def normalizeParameters (parameters : Option RawJson) (language : SupportedLanguage) :
    List IFunctionParameter :=
  match parameters with
  | some (RawJson.jobj (some positional) keywords) =>
      let posParams := mapWithIndex (fun index v =>
        { position := index
          value := some (RawValue.normalize v)
          isNamed := false }) 0 positional
      let kwParams :=
        match keywords with
        | some kws => mapWithIndex (fun index nv =>
            { name := some nv.1
              position := positional.length + index
              value := some (RawValue.normalize nv.2)
              isNamed := true
              style := some ParameterStyle.named }) 0 kws
        | none => []
      posParams ++ kwParams
  | some (RawJson.jarr ps) =>
      mapWithIndex (fun index p => normalizeRawParameter language index p) 0 ps
  | _ => []

end ParserOutputNormalizer

/-- Re-embedding of an already-normalized parameter as a raw object record:
in JavaScript the normalized object is fed back to `normalizeParameters`
as-is, so every field it carries is visible under its camelCase key and the
snake_case keys and flag keys it never carries are absent. -/
def IFunctionParameter.toRawObj (p : IFunctionParameter) : RawParamObj :=
  { name := p.name
    position := some p.position
    value := p.value
    isNamed := some p.isNamed
    isDefault := p.isDefault
    inferredType := p.inferredType
    annotation := paramAnnotOf p
    defaultValue := p.defaultValue
    isVariadic := p.isVariadic }

/-- A normalized parameter list viewed again as a raw `normalizeParameters`
input (an array of object records). -/
def toRawJson (l : List IFunctionParameter) : RawJson :=
  RawJson.jarr (l.map (fun p => RawParameter.obj (IFunctionParameter.toRawObj p)))

/-- Forget the `style` field of a normalized parameter. -/
def eraseStyle (p : IFunctionParameter) : IFunctionParameter :=
  { p with style := none }

/-- Invariant of every `normalizeParameters` output element: the inferred
type can only be absent when the raw type hint was also absent, and
`isVariadic` is never explicitly `false`. -/
def ParamInv (p : IFunctionParameter) : Prop :=
  (p.inferredType = none → paramAnnotOf p = none) ∧ p.isVariadic ≠ some false

/-- Keyword-only flag test of the style-priority chain (normalizer.ts 274). -/
def kwOnlyFlag (o : RawParamObj) : Bool :=
  truthyFlag o.isKeywordOnly || truthyFlag o.is_keyword_only

/-- Positional-only flag test of the style-priority chain (276). -/
def posOnlyFlag (o : RawParamObj) : Bool :=
  truthyFlag o.isPositionalOnly || truthyFlag o.is_positional_only

/-- Variadic flag test of the style-priority chain (278). -/
def varargFlag (o : RawParamObj) : Bool :=
  truthyFlag o.isVararg || truthyFlag o.is_vararg ||
    truthyFlag o.isVariadic || truthyFlag o.is_variadic

/-- Python keyword-variadic flag test (282). -/
def kwargFlag (o : RawParamObj) : Bool :=
  truthyFlag o.isKwarg || truthyFlag o.is_kwarg

/-- The `isNamed` value the normalizer computes for an object record (266). -/
def namedVal (o : RawParamObj) : Bool :=
  (jsNullish o.isNamed o.is_named).getD false

/-- Concrete input refuting idempotence of parameter normalization: a raw
record carrying only the Python keyword-only flag. -/
def c1RawInput : Option RawJson :=
  some (RawJson.jarr [RawParameter.obj { is_keyword_only := some true }])

/-- Concrete positional array for the C3 witness. -/
def c3Pos : List RawValue := [RawValue.vstr "x", RawValue.vother "3"]

/-- Concrete keywords map for the C3 witness. -/
def c3Kws : List (String × RawValue) := [("k", RawValue.vstr "v")]

/-- Concrete array-shaped parameter list for the C3 witness. -/
def c3Arr : List RawParameter := [RawParameter.str "a", RawParameter.obj { is_named := some true }]

/-- Truthiness of a raw JSON value in a JS `||` chain: null is falsy, arrays
and objects are truthy, any other value carries its own truthiness. -/
def jsTruthyJson : RawJson → Bool
  | .jnull => false
  | .jarr _ => true
  | .jobj _ _ => true
  | .jother b => b

/-- JS `a || b` on possibly-absent JSON values. -/
def jsOrJsonO (a b : Option RawJson) : Option RawJson :=
  match a with
  | some j => if jsTruthyJson j then some j else b
  | none => b

/-- A raw nested location record (`{line, column}` shape, plus `endLine` for
definitions). -/
structure RawLocation where
  line : Nat
  column : Option Nat := none
  endLine : Option Nat := none
deriving DecidableEq, Repr

/-- `types.ts` `ISourceLocation`. -/
structure ISourceLocation where
  line : Nat
  column : Option Nat := none
  endLine : Option Nat := none
  endColumn : Option Nat := none
deriving DecidableEq, Repr

/-- A raw function-call record: every field `normalizeCall` reads, each
possibly absent. The JS `class` key is spelled `class_` (Lean keyword). -/
structure RawCall where
  id : Option String := none
  name : String
  qualifiedName : Option String := none
  qualified_name : Option String := none
  line : Option Nat := none
  lineNumber : Option Nat := none
  column : Option Nat := none
  columnNumber : Option Nat := none
  location : Option RawLocation := none
  filePath : Option String := none
  parameters : Option RawJson := none
  arguments : Option RawJson := none
  sourceCode : Option String := none
  parentFunctionId : Option String := none
  parentFunction : Option String := none
  calleeFunction : Option String := none
  confidence : Option ℚ := none
  callerClass : Option String := none
  class_ : Option String := none
  isCommandStyle : Option Bool := none
  is_command_style : Option Bool := none
  isMethodCall : Option Bool := none
  is_method_call : Option Bool := none
  outputs : Option (List String) := none
deriving DecidableEq, Repr

/-- `types.ts` `IFunctionCall`. -/
structure IFunctionCall where
  id : String
  name : String
  fullyQualifiedName : Option String := none
  lineNumber : Nat
  columnNumber : Option Nat := none
  location : Option ISourceLocation := none
  filePath : String
  parameters : List IFunctionParameter
  sourceCode : Option String := none
  parentFunctionId : Option String := none
  calleeFunction : Option String := none
  confidence : ℚ
  callerClass : Option String := none
  isCommandStyle : Option Bool := none
  isMethodCall : Option Bool := none
  outputs : Option (List String) := none
deriving DecidableEq, Repr

/-- Placeholder for the id the source generates with
`'call_' + Math.random().toString(36).substring(2, 9)` when the raw call has
no truthy id. -/
def callRandomId : String := "call_random"

/-- A raw variable record: every field `normalizeVariable` reads. -/
structure RawVariable where
  name : String
  location : Option RawLocation := none
  type : Option String := none
  annotation : Option String := none
  initialValue : Option String := none
  initial_value : Option String := none
  scope : Option String := none
  isConstant : Option Bool := none
  is_constant : Option Bool := none
deriving DecidableEq, Repr

/-- Accessor alias for the raw variable's type hint. -/
def varAnnotOf (v : RawVariable) : Option String := RawVariable.annotation v

/-- `types.ts` `IVariable`. -/
structure IVariable where
  name : String
  location : Option ISourceLocation := none
  type : Option String := none
  initialValue : Option String := none
  scope : String
  isConstant : Option Bool := none
deriving DecidableEq, Repr

namespace ParserOutputNormalizer

/-- `normalizeCall` (normalizer.ts lines 94-124): location from the first
truthy of the flat and nested fields, `??`/`||` fallbacks per field, default
confidence 1.0, and MATLAB-only extras. -/
def normalizeCall (call : RawCall) (language : SupportedLanguage) : IFunctionCall :=
  let location : ISourceLocation :=
    { line := jsOrNat call.line (jsOrNat call.lineNumber
        (match call.location with | some l => l.line | none => 0))
      column := jsOrNatO call.column (jsOrNatO call.columnNumber
        (match call.location with | some l => l.column | none => none)) }
  let normalized : IFunctionCall :=
    { id := jsOrStr call.id callRandomId
      name := call.name
      fullyQualifiedName := jsOrStrO call.qualifiedName call.qualified_name
      lineNumber := location.line
      columnNumber := location.column
      location := some location
      filePath := jsOrStr call.filePath ""
      parameters := normalizeParameters (jsOrJsonO call.parameters call.arguments) language
      sourceCode := call.sourceCode
      parentFunctionId := jsOrStrO call.parentFunctionId call.parentFunction
      calleeFunction := call.calleeFunction
      confidence := jsOrRat call.confidence 1
      callerClass := jsOrStrO call.callerClass call.class_ }
  if language = SupportedLanguage.matlab then
    { normalized with
      isCommandStyle := jsOrBoolO call.isCommandStyle call.is_command_style
      isMethodCall := jsOrBoolO call.isMethodCall call.is_method_call
      outputs := call.outputs }
  else
    normalized

/-- `normalizeVariable` (normalizer.ts lines 200-212). -/
def normalizeVariable (v : RawVariable) (language : SupportedLanguage) : IVariable :=
  { name := v.name
    location :=
      match v.location with
      | some l => some { line := l.line, column := l.column }
      | none => none
    type := jsOrStrO v.type (varAnnotOf v)
    initialValue := jsOrStrO v.initialValue v.initial_value
    scope := jsOrStr v.scope "global"
    isConstant := jsOrBoolO v.isConstant v.is_constant }

end ParserOutputNormalizer

/-- Concrete call whose confidence is present but zero (C7 counterexample). -/
def c7RawCall : RawCall := { name := "filter", confidence := some 0 }

/-- Concrete flat-shape call with column 0 (C8 counterexample). -/
def c8FlatCall : RawCall := { name := "f", line := some 5, column := some 0 }

/-- Concrete nested-shape call with the same line 5 and column 0 (C8
counterexample). -/
def c8NestedCall : RawCall := { name := "f", location := some { line := 5, column := some 0 } }

/-- A raw function-definition record: every field `normalizeDefinition`
reads. -/
structure RawDef where
  id : Option String := none
  name : String
  qualifiedName : Option String := none
  qualified_name : Option String := none
  line : Option Nat := none
  lineStart : Option Nat := none
  column : Option Nat := none
  lineEnd : Option Nat := none
  location : Option RawLocation := none
  filePath : Option String := none
  parameters : Option RawJson := none
  returnType : Option String := none
  return_type : Option String := none
  returnAnnotation : Option String := none
  return_annotation : Option String := none
  documentation : Option String := none
  docstring : Option String := none
  body : Option String := none
  isAsync : Option Bool := none
  is_async : Option Bool := none
  decorators : Option (List String) := none
  outputs : Option (List String) := none
  returnValues : Option (List String) := none
  return_values : Option (List String) := none
  isMethod : Option Bool := none
  is_method : Option Bool := none
  className : Option String := none
  class_name : Option String := none
  isConstructor : Option Bool := none
  is_constructor : Option Bool := none
  isStatic : Option Bool := none
  is_static : Option Bool := none
deriving DecidableEq, Repr

/-- Accessor alias for the raw definition's camelCase return hint. -/
def retAnnotOf (d : RawDef) : Option String := RawDef.returnAnnotation d

/-- Accessor alias for the raw definition's snake_case return hint. -/
def retSnakeAnnotOf (d : RawDef) : Option String := RawDef.return_annotation d

/-- `types.ts` `IFunctionDefinition`. -/
structure IFunctionDefinition where
  id : String
  name : String
  fullyQualifiedName : Option String := none
  filePath : String
  lineStart : Nat
  lineEnd : Nat
  location : Option ISourceLocation := none
  parameters : List IFunctionParameter
  returnType : Option String := none
  returnValue : Option String := none
  returnValues : Option (List String) := none
  documentation : Option String := none
  body : Option String := none
  isMethod : Option Bool := none
  isConstructor : Option Bool := none
  isStatic : Option Bool := none
  isAsync : Option Bool := none
  decorators : Option (List String) := none
  visibility : Option String := none
  className : Option String := none
deriving DecidableEq, Repr

/-- Placeholder for the id the source generates with
`'def_' + Math.random().toString(36).substring(2, 9)`. -/
def defRandomId : String := "def_random"

/-- A raw import record (the JS `alias` key is spelled `alias_`, a Lean
keyword). -/
structure RawImport where
  module : Option String := none
  name : Option String := none
  alias_ : Option String := none
  location : Option RawLocation := none
  isFromImport : Option Bool := none
  is_from_import : Option Bool := none
deriving DecidableEq, Repr

/-- `types.ts` `IImport` (the JS `alias` key is spelled `alias_`). -/
structure IImport where
  module : String
  name : Option String := none
  alias_ : Option String := none
  location : Option ISourceLocation := none
  isFromImport : Option Bool := none
deriving DecidableEq, Repr

/-- The `imports` field of a raw result: either an array of strings (legacy
format, detected by the first element being a string) or structured import
records. An empty raw array behaves like `objs []`. -/
inductive RawImports
  | strs (l : List String)
  | objs (l : List RawImport)
deriving DecidableEq, Repr

/-- The `imports` field of `ICodeParserResult`: `IImport[] | string[]`. -/
inductive ImportsField
  | objs (l : List IImport)
  | strs (l : List String)
deriving DecidableEq, Repr

/-- A raw parser result: every field `normalizeResult` reads (the JS
`variables` key is spelled `variables_`, a reserved Lean token). -/
structure RawResult where
  filePath : Option String := none
  file : Option String := none
  functionCalls : Option (List RawCall) := none
  function_calls : Option (List RawCall) := none
  functionDefinitions : Option (List RawDef) := none
  function_definitions : Option (List RawDef) := none
  imports : Option RawImports := none
  variables_ : Option (List RawVariable) := none
  dependencies : Option (List String) := none
  parseErrors : Option (List String) := none
  errors : Option (List String) := none
  metadata : Option (List (String × String)) := none
  hasMainGuard : Option Bool := none
  parserVersion : Option String := none
deriving DecidableEq, Repr

/-- `types.ts` `ICodeParserResult`. -/
structure ICodeParserResult where
  filePath : String
  language : String
  functionCalls : List IFunctionCall
  functionDefinitions : List IFunctionDefinition
  imports : ImportsField := ImportsField.objs []
  variables_ : Option (List IVariable) := none
  dependencies : List String
  hasMainGuard : Option Bool := none
  parseErrors : List String
  metadata : Option (List (String × String)) := none
  parserVersion : Option String := none
  parserName : Option String := none
deriving DecidableEq, Repr

namespace ParserOutputNormalizer

/-- `normalizeDefinition` (normalizer.ts lines 132-168). -/
def normalizeDefinition (d : RawDef) (language : SupportedLanguage) : IFunctionDefinition :=
  let location : ISourceLocation :=
    { line := jsOrNat d.line (jsOrNat d.lineStart
        (match d.location with | some l => l.line | none => 0))
      column := jsOrNatO d.column
        (match d.location with | some l => l.column | none => none)
      endLine := jsOrNatO d.lineEnd
        (match d.location with | some l => l.endLine | none => none) }
  let normalized : IFunctionDefinition :=
    { id := jsOrStr d.id defRandomId
      name := d.name
      fullyQualifiedName := jsOrStrO d.qualifiedName d.qualified_name
      filePath := jsOrStr d.filePath ""
      lineStart := location.line
      lineEnd := jsOrNat location.endLine (location.line + 1)
      location := some location
      parameters := normalizeParameters d.parameters language
      returnType := jsOrStrO d.returnType (jsOrStrO d.return_type
        (jsOrStrO (retAnnotOf d) (retSnakeAnnotOf d)))
      documentation := jsOrStrO d.documentation d.docstring
      body := d.body }
  let withLang : IFunctionDefinition :=
    match language with
    | SupportedLanguage.python =>
        { normalized with
          isAsync := jsOrBoolO d.isAsync d.is_async
          decorators := d.decorators }
    | SupportedLanguage.matlab =>
        { normalized with
          returnValues := jsNullish d.outputs (jsNullish d.returnValues d.return_values) }
    | SupportedLanguage.unknown => normalized
  { withLang with
    isMethod := jsOrBoolO d.isMethod d.is_method
    className := jsOrStrO d.className d.class_name
    isConstructor := jsOrBoolO d.isConstructor d.is_constructor
    isStatic := jsOrBoolO d.isStatic d.is_static }

/-- `normalizeImport` (normalizer.ts lines 176-192). -/
def normalizeImport (imp : RawImport) (language : SupportedLanguage) : IImport :=
  let normalized : IImport :=
    { module := jsOrStr imp.module ""
      name := imp.name
      alias_ := imp.alias_
      location :=
        match imp.location with
        | some l => some { line := l.line, column := l.column }
        | none => none }
  if language = SupportedLanguage.python then
    { normalized with isFromImport := jsOrBoolO imp.isFromImport imp.is_from_import }
  else
    normalized

/-- `normalizeResult` (normalizer.ts lines 29-86). -/
def normalizeResult (result : RawResult) (language : SupportedLanguage)
    (parserName : Option String) : ICodeParserResult :=
  { filePath := jsOrStr (jsOrStrO result.filePath result.file) "<unknown>"
    language := language.toStr
    functionCalls :=
      match jsNullish result.functionCalls result.function_calls with
      | some calls => calls.map (fun c => normalizeCall c language)
      | none => []
    functionDefinitions :=
      match jsNullish result.functionDefinitions result.function_definitions with
      | some defs => defs.map (fun d => normalizeDefinition d language)
      | none => []
    imports :=
      match result.imports with
      | some (RawImports.strs l) => ImportsField.strs l
      | some (RawImports.objs l) => ImportsField.objs (l.map (fun i => normalizeImport i language))
      | none => ImportsField.objs []
    variables_ :=
      match result.variables_ with
      | some vs => some (vs.map (fun v => normalizeVariable v language))
      | none => none
    dependencies := result.dependencies.getD []
    parseErrors := (jsNullish result.parseErrors result.errors).getD []
    metadata := some (result.metadata.getD [])
    hasMainGuard :=
      if language = SupportedLanguage.python then some (result.hasMainGuard.getD false)
      else none
    parserVersion := result.parserVersion
    parserName := parserName }

end ParserOutputNormalizer

/-- Split a character list on a separator (like `String.splitOn`, but by
structural recursion so that concrete instances reduce). -/
def splitOnChar (sep : Char) : List Char → List (List Char)
  | [] => [[]]
  | c :: cs =>
      match splitOnChar sep cs with
      | [] => [[]]
      | g :: gs => if c = sep then [] :: g :: gs else (c :: g) :: gs

/-- Index of the last occurrence of a character, if any. -/
def lastIdxOf (c : Char) (cs : List Char) : Option Nat :=
  let rec go : List Char → Nat → Option Nat → Option Nat
    | [], _, acc => acc
    | x :: xs, i, acc => go xs (i + 1) (if x = c then some i else acc)
  go cs 0 none

/-- JS `String.prototype.toLowerCase`, modelled on code points. -/
def jsToLower (s : String) : String := String.mk (s.toList.map Char.toLower)

/-- JS `String.prototype.slice(1)`. -/
def jsSlice1 (s : String) : String := String.mk (s.toList.drop 1)

/-- Node `path.extname` (posix): the extension of the last path component,
including the leading dot; empty for dotless names, leading-dot names and
`".."`. -/
def extname (p : String) : String :=
  let base := List.getLastD (splitOnChar '/' p.toList) []
  if base = ['.', '.'] then ""
  else
    match lastIdxOf '.' base with
    | none => ""
    | some 0 => ""
    | some i => String.mk (base.drop i)

/-- A thrown `McpApplicationError`: a message plus an error code. -/
structure JsError where
  code : Option String := none
  message : String := ""
deriving DecidableEq, Repr

/-- The `parser.constructor.name` passed to `normalizeResult`: the default
factory registers `PythonParser` and `MatlabParser`; no parser is registered
for `unknown`, which `getParserForFile` never returns. -/
def parserConstructorName : SupportedLanguage → String
  | SupportedLanguage.python => "PythonParser"
  | SupportedLanguage.matlab => "MatlabParser"
  | SupportedLanguage.unknown => ""

namespace CodeParserFactory

/-- `getParserForFile` (parserFactory.ts lines 84-100) composed with
`getParser` on the default registry (PythonParser and MatlabParser are
registered by the constructor, so `getParser` succeeds for both). -/
def getParserForFile (filePath : String) : Except JsError SupportedLanguage :=
  let ext := jsToLower (extname filePath)
  if ext = ".py" then Except.ok SupportedLanguage.python
  else if ext = ".m" then Except.ok SupportedLanguage.matlab
  else Except.error { code := some "UNSUPPORTED_LANGUAGE"
                      message := "Unsupported file extension: " ++ ext }

end CodeParserFactory

namespace CodeParserService

/-- `parseFile` (service.ts lines 52-93), with the language parsers
abstracted as a function `parse` from the selected language to the raw
result or a thrown error. The catch clause turns PARSER_NOT_FOUND /
UNSUPPORTED_LANGUAGE errors into a minimal result and rethrows the rest. -/
def parseFile (parse : SupportedLanguage → Except JsError RawResult)
    (filePath : String) : Except JsError ICodeParserResult :=
  let attempt : Except JsError ICodeParserResult :=
    match CodeParserFactory.getParserForFile filePath with
    | Except.error e => Except.error e
    | Except.ok language =>
        match parse language with
        | Except.error e => Except.error e
        | Except.ok result =>
            Except.ok (ParserOutputNormalizer.normalizeResult result language
              (some (parserConstructorName language)))
  match attempt with
  | Except.ok v => Except.ok v
  | Except.error e =>
      if e.code = some "PARSER_NOT_FOUND" ∨ e.code = some "UNSUPPORTED_LANGUAGE" then
        Except.ok
          { filePath := filePath
            language := jsSlice1 (extname filePath)
            functionCalls := []
            functionDefinitions := []
            imports := ImportsField.objs []
            dependencies := []
            parseErrors := ["Language " ++ jsSlice1 (extname filePath) ++ " is not supported"] }
      else
        Except.error e

end CodeParserService

/-- Top-level raw pipeline document as seen by `signalJourney.schema.json`:
the fields the top-level schema itself constrains, with the
`pipelineInfo.schema.json` and `processingStep.schema.json` sub-schemas (not
part of this source tree) abstracted as the type parameters' validators. -/
structure RawDocument (π σ : Type) where
  sj_version : Option String := none
  schema_version : Option String := none
  description : Option String := none
  pipelineInfo : Option π := none
  processingSteps : Option (List σ) := none

/-- ASCII digit test for the schema's version regexes. -/
def isAsciiDigit (c : Char) : Bool := '0' ≤ c && c ≤ '9'

/-- The schema pattern `^[0-9]+\.[0-9]+\.[0-9]+$`: exactly three non-empty
all-digit groups separated by dots. -/
def semverPattern (s : String) : Bool :=
  match splitOnChar '.' s.toList with
  | [a, b, c] =>
      !a.isEmpty && !b.isEmpty && !c.isEmpty &&
        a.all isAsciiDigit && b.all isAsciiDigit && c.all isAsciiDigit
  | _ => false

/-- The top-level checks of `signalJourney.schema.json`: the five required
keys, `sj_version` against `^[0-9]+\.[0-9]+\.[0-9]+$`, `schema_version`
against the pattern `^0\.2\.0$` and const `"0.2.0"` (jointly: equality
with `"0.2.0"`), `processingSteps` with `minItems 1`, and delegation to the
referenced sub-schemas for `pipelineInfo` and each processing step. -/
def signalJourneyAccepts {π σ : Type} (piOk : π → Bool) (stepOk : σ → Bool)
    (d : RawDocument π σ) : Bool :=
  (match d.sj_version with | some s => semverPattern s | none => false) &&
  (match d.schema_version with | some s => decide (s = "0.2.0") | none => false) &&
  d.description.isSome &&
  (match d.pipelineInfo with | some p => piOk p | none => false) &&
  (match d.processingSteps with
   | some steps => decide (1 ≤ steps.length) && steps.all stepOk
   | none => false)

/-- A parser behavior that always succeeds with an empty raw result (C9
witness). -/
def c9ParseOk : SupportedLanguage → Except JsError RawResult := fun _ => Except.ok {}

/-- A parse error with a code the catch clause does not swallow (C9
witness). -/
def c9Err : JsError := { code := some "EPARSE", message := "boom" }

/-- A parser behavior that always throws `c9Err` (C9 witness). -/
def c9ParseFail : SupportedLanguage → Except JsError RawResult := fun _ => Except.error c9Err

/-- A concrete accepted pipeline document over trivial sub-schemas (C6
witness). -/
def c6Doc : RawDocument Unit Unit :=
  { sj_version := some "0.1.0"
    schema_version := some "0.2.0"
    description := some "a pipeline"
    pipelineInfo := some ()
    processingSteps := some [()] }

/-- Modelled from the spec: `OutputTarget` (section 3 and
`outputTarget.schema.json`): tagged by `targetType`, labelled by the
required free-text `description`, with `name` for variable/inlineData
targets. Only the fields the Reference Resolver consults are carried. -/
structure OutputTarget where
  targetType : String
  description : String
  name : Option String := none
deriving DecidableEq, Repr

/-- Modelled from the spec: `InputSource` (section 3): tagged by
`sourceType`; a `previousStepOutput` source carries `stepId` and
`outputId`. -/
structure InputSource where
  sourceType : String
  stepId : Option String := none
  outputId : Option String := none
deriving DecidableEq, Repr

/-- Modelled from the spec: `ProcessingStep` (sections 3 and 6). -/
structure ProcessingStep where
  stepId : String
  name : String := ""
  description : String := ""
  inputSources : List InputSource := []
  outputTargets : List OutputTarget := []
  dependsOn : List String := []
deriving DecidableEq, Repr

/-- Modelled from the spec: `PipelineDocument` (sections 3 and 6), reduced
to the fields the graph engine reads. -/
structure PipelineDocument where
  sj_version : String := "0.1.0"
  schema_version : String := "0.2.0"
  description : String := ""
  processingSteps : List ProcessingStep
deriving DecidableEq, Repr

/-- Modelled from the spec: the error taxonomy of section 7. -/
inductive ErrorKind
  | MalformedStep
  | UnknownStepReference
  | UnknownOutputReference
  | AmbiguousOutputReference
  | CyclicDependency
  | MissingDeclaredDependency
deriving DecidableEq, Repr

/-- Modelled from the spec: `ErrorRecord = {kind, stepId?, detail}`
(section 6). -/
structure ErrorRecord where
  kind : ErrorKind
  stepId : Option String := none
  detail : String := ""
deriving DecidableEq, Repr

/-- Modelled from the spec: the `ValidationReport` contract of sections 4.5
and 6. -/
structure ValidationReport where
  valid : Bool
  errors : List ErrorRecord
  warnings : List ErrorRecord
  executionOrder : Option (List String)
deriving DecidableEq, Repr

/-- Modelled from the spec (section 4.2): an output target matches a
requested `outputId` when its `description` equals it, or its `name` does
for variable/inlineData targets. -/
def outputMatches (label : String) (t : OutputTarget) : Bool :=
  t.description = label ||
    ((t.targetType = "variable" || t.targetType = "inlineData") && t.name = some label)

/-- Look up a step by id (first match in document order). -/
def findStep (steps : List ProcessingStep) (sid : String) : Option ProcessingStep :=
  steps.find? (fun s => s.stepId = sid)

/-- The `(stepId, outputId)` pairs of a step's previousStepOutput inputs. -/
def stepPrevRefs (s : ProcessingStep) : List (String × String) :=
  s.inputSources.filterMap (fun i =>
    if i.sourceType = "previousStepOutput" then some (i.stepId.getD "", i.outputId.getD "")
    else none)

/-- Every previousStepOutput reference of the document, in document order,
tagged with the referencing step's id. -/
def prevRefPairs : List ProcessingStep → List (String × String × String)
  | [] => []
  | s :: ss => (stepPrevRefs s).map (fun r => (s.stepId, r.1, r.2)) ++ prevRefPairs ss

/-- Modelled from the spec (section 4.2): resolve one previousStepOutput
reference; UnknownStepReference when the step is absent,
UnknownOutputReference when no output matches the label,
AmbiguousOutputReference when more than one does, otherwise the resolved
edge (referencing step, referenced step). -/
def resolveRef (steps : List ProcessingStep) (fromId tid label : String) :
    Except ErrorRecord (String × String) :=
  match findStep steps tid with
  | none =>
      Except.error { kind := ErrorKind.UnknownStepReference, stepId := some fromId, detail := tid }
  | some target =>
      match (target.outputTargets.filter (outputMatches label)).length with
      | 0 =>
          Except.error { kind := ErrorKind.UnknownOutputReference, stepId := some fromId,
                         detail := tid ++ ":" ++ label }
      | 1 => Except.ok (fromId, tid)
      | _ + 2 =>
          Except.error { kind := ErrorKind.AmbiguousOutputReference, stepId := some fromId,
                         detail := tid ++ ":" ++ label }

/-- The successfully resolved previousStepOutput edges. -/
def resolvedEdges (steps : List ProcessingStep) : List (String × String) :=
  (prevRefPairs steps).filterMap (fun p =>
    match resolveRef steps p.1 p.2.1 p.2.2 with
    | Except.ok e => some e
    | Except.error _ => none)

/-- The accumulated resolution errors, in document order. -/
def resolveErrors (steps : List ProcessingStep) : List ErrorRecord :=
  (prevRefPairs steps).filterMap (fun p =>
    match resolveRef steps p.1 p.2.1 p.2.2 with
    | Except.ok _ => none
    | Except.error e => some e)

/-- The declared `dependsOn` edges (dependent step, dependency), in document
order. -/
def dependsOnPairs : List ProcessingStep → List (String × String)
  | [] => []
  | s :: ss => s.dependsOn.map (fun d => (s.stepId, d)) ++ dependsOnPairs ss

/-- Modelled from the spec (section 7): a `dependsOn` entry naming a step
not present in the document yields UnknownStepReference. -/
def dependsOnErrors (steps : List ProcessingStep) : List ErrorRecord :=
  (dependsOnPairs steps).filterMap (fun e =>
    if (findStep steps e.2).isSome then none
    else some { kind := ErrorKind.UnknownStepReference, stepId := some e.1, detail := e.2 })

/-- Modelled from the spec (section 4.3): a resolved data dependency not
mirrored in the dependent step's `dependsOn` yields a non-fatal
MissingDeclaredDependency warning. -/
def missingDeclaredWarnings (steps : List ProcessingStep) : List ErrorRecord :=
  (resolvedEdges steps).filterMap (fun e =>
    match findStep steps e.1 with
    | some s =>
        if e.2 ∈ s.dependsOn then none
        else some { kind := ErrorKind.MissingDeclaredDependency, stepId := some e.1, detail := e.2 }
    | none => none)

/-- The union of declared and resolved dependency edges (dependent,
dependency). -/
def allEdges (steps : List ProcessingStep) : List (String × String) :=
  dependsOnPairs steps ++ resolvedEdges steps

/-- The edges fed to the topological sort: those whose dependency target
exists (a missing target is already reported as UnknownStepReference). -/
def sortEdges (steps : List ProcessingStep) : List (String × String) :=
  (allEdges steps).filter (fun e => (findStep steps e.2).isSome)

/-- All dependencies of `sid` recorded in `edges` are already emitted. -/
def depsDone (edges : List (String × String)) (done : List String) (sid : String) : Bool :=
  edges.all (fun e => decide (e.1 ≠ sid) || decide (e.2 ∈ done))

/-- Modelled from the spec (section 4.3): the next step to emit is the first
step in document order that is not yet emitted and whose dependencies are
all emitted (this is the document-order tie-breaking rule). -/
def selectNext (steps : List ProcessingStep) (edges : List (String × String))
    (done : List String) : Option String :=
  (steps.find? (fun s => decide (s.stepId ∉ done) && depsDone edges done s.stepId)).map
    (fun s => s.stepId)

/-- Kahn's algorithm main loop, emitting one step per round. -/
def kahnLoop (steps : List ProcessingStep) (edges : List (String × String)) :
    Nat → List String → List String
  | 0, acc => acc
  | n + 1, acc =>
      match selectNext steps edges acc with
      | none => acc
      | some sid => kahnLoop steps edges n (acc ++ [sid])

/-- Modelled from the spec (section 4.3): the topological execution order,
or `none` when the sort cannot consume every node. -/
def topoOrder (steps : List ProcessingStep) (edges : List (String × String)) :
    Option (List String) :=
  let ord := kahnLoop steps edges steps.length []
  if ord.length = steps.length then some ord else none

/-- Comma-join of the step ids left unconsumed by a stuck sort. -/
def joinCommas : List String → String
  | [] => ""
  | [x] => x
  | x :: y :: xs => x ++ "," ++ joinCommas (y :: xs)

/-- A finite edge list is acyclic exactly when some rank function decreases
along every edge (dependency ranked below dependent). -/
def AcyclicEdges (edges : List (String × String)) : Prop :=
  ∃ rank : String → Nat, ∀ e ∈ edges, rank e.2 < rank e.1

/-- Modelled from the spec (sections 4.5, 5, 7): `validate` runs the
resolver and the graph validator, accumulates every error and warning into
one report, and populates `executionOrder` only when there is no error. -/
def validate (doc : PipelineDocument) : ValidationReport :=
  let steps := doc.processingSteps
  let refErrors := dependsOnErrors steps ++ resolveErrors steps
  let edges := sortEdges steps
  let cycErrors : List ErrorRecord :=
    match topoOrder steps edges with
    | some _ => []
    | none =>
        [{ kind := ErrorKind.CyclicDependency, stepId := none,
           detail := joinCommas ((steps.map (fun s => s.stepId)).filter
             (fun sid => decide (sid ∉ kahnLoop steps edges steps.length []))) }]
  let errors := refErrors ++ cycErrors
  { valid := errors.isEmpty
    errors := errors
    warnings := missingDeclaredWarnings steps
    executionOrder := if errors.isEmpty then topoOrder steps edges else none }

/-- The step-id list of a document's steps, in document order. -/
def idsOf (steps : List ProcessingStep) : List String := steps.map (fun s => s.stepId)

/-- The invariant the Kahn loop maintains: the emitted prefix is duplicate
free, made of known step ids, and each element was the selected step at its
position. -/
def KahnInv (steps : List ProcessingStep) (edges : List (String × String))
    (acc : List String) : Prop :=
  acc.Nodup ∧ (∀ x ∈ acc, x ∈ idsOf steps) ∧
  (∀ k : Nat, k < acc.length → selectNext steps edges (acc.take k) = acc[k]?)

/-- Concrete three-step chain document (C2 witness). -/
def c2Doc : PipelineDocument :=
  { processingSteps :=
      [{ stepId := "load"
         outputTargets := [{ targetType := "file", description := "raw" }] },
       { stepId := "filter"
         inputSources := [{ sourceType := "previousStepOutput", stepId := some "load",
                            outputId := some "raw" }]
         outputTargets := [{ targetType := "in-memory", description := "filtered" }]
         dependsOn := ["load"] },
       { stepId := "reref"
         inputSources := [{ sourceType := "previousStepOutput", stepId := some "filter",
                            outputId := some "filtered" }]
         dependsOn := ["filter"] }] }

/-- Concrete document with a duplicated output label (C5 witness): step "a"
has two outputs both described "out", step "b" references that label. -/
def c5Doc : PipelineDocument :=
  { processingSteps :=
      [{ stepId := "a"
         outputTargets := [{ targetType := "in-memory", description := "out" },
                           { targetType := "file", description := "out" }] },
       { stepId := "b"
         inputSources := [{ sourceType := "previousStepOutput", stepId := some "a",
                            outputId := some "out" }]
         dependsOn := ["a"] }] }

end SignalJourney

namespace SignalJourney

/-! ## Theorems -/

theorem jsNullish_eq_none {α : Type} (a b : Option α) :
    jsNullish a b = none ↔ a = none ∧ b = none := by
  cases a <;> simp [jsNullish]

theorem mapWithIndex_length {α β : Type} (f : Nat → α → β) :
    ∀ (i : Nat) (l : List α), (mapWithIndex f i l).length = l.length := by
  intro i l
  induction l generalizing i with
  | nil => rfl
  | cons x xs ih => simp [mapWithIndex, ih]

theorem mapWithIndex_getElem? {α β : Type} (f : Nat → α → β) :
    ∀ (l : List α) (i j : Nat),
      (mapWithIndex f i l)[j]? = (l[j]?).map (fun x => f (i + j) x) := by
  intro l
  induction l with
  | nil => intro i j; simp [mapWithIndex]
  | cons x xs ih =>
      intro i j
      cases j with
      | zero => simp [mapWithIndex]
      | succ k =>
          have he : i + (k + 1) = (i + 1) + k := by omega
          simp only [mapWithIndex, List.getElem?_cons_succ, ih (i + 1) k, he]

theorem mapWithIndex_mem {α β : Type} (f : Nat → α → β) :
    ∀ {p : β} {i : Nat} {l : List α}, p ∈ mapWithIndex f i l →
      ∃ j x, x ∈ l ∧ p = f j x := by
  intro p i l
  induction l generalizing i with
  | nil => intro h; simp [mapWithIndex] at h
  | cons y ys ih =>
      intro h
      simp only [mapWithIndex, List.mem_cons] at h
      rcases h with h | h
      · exact ⟨i, y, List.mem_cons_self y ys, h⟩
      · obtain ⟨j, x, hx, he⟩ := ih h
        exact ⟨j, x, List.mem_cons_of_mem y hx, he⟩

theorem normalizeRawParameter_inv (lang : SupportedLanguage) (i : Nat) (r : RawParameter) :
    ParamInv (ParserOutputNormalizer.normalizeRawParameter lang i r) := by
  cases r with
  | str s => constructor <;> simp [ParserOutputNormalizer.normalizeRawParameter, paramAnnotOf]
  | obj o =>
      simp only [ParserOutputNormalizer.normalizeRawParameter]
      repeat' split
      all_goals refine ⟨fun h => ?_, by simp⟩
      all_goals simp only [paramAnnotOf] at *
      all_goals simp only [jsNullish_eq_none] at h
      all_goals simpa using h.2

theorem normalizeParameters_mem_inv (ps : Option RawJson) (lang : SupportedLanguage) :
    ∀ p ∈ ParserOutputNormalizer.normalizeParameters ps lang, ParamInv p := by
  intro p hp
  match ps with
  | none => simp [ParserOutputNormalizer.normalizeParameters] at hp
  | some RawJson.jnull => simp [ParserOutputNormalizer.normalizeParameters] at hp
  | some (RawJson.jother b) => simp [ParserOutputNormalizer.normalizeParameters] at hp
  | some (RawJson.jobj none kws) => simp [ParserOutputNormalizer.normalizeParameters] at hp
  | some (RawJson.jarr l) =>
      simp only [ParserOutputNormalizer.normalizeParameters] at hp
      obtain ⟨j, x, _, he⟩ := mapWithIndex_mem _ hp
      exact he ▸ normalizeRawParameter_inv lang j x
  | some (RawJson.jobj (some pos) kws) =>
      simp only [ParserOutputNormalizer.normalizeParameters, List.mem_append] at hp
      rcases hp with h | h
      · obtain ⟨j, x, _, he⟩ := mapWithIndex_mem _ h
        subst he
        constructor <;> simp [paramAnnotOf]
      · cases kws with
        | none => simp at h
        | some kws =>
            obtain ⟨j, x, _, he⟩ := mapWithIndex_mem _ h
            subst he
            constructor <;> simp [paramAnnotOf]

theorem renorm_eraseStyle (p : IFunctionParameter)
    (h1 : p.inferredType = none → paramAnnotOf p = none)
    (h2 : p.isVariadic ≠ some false) (lang : SupportedLanguage) (i : Nat) :
    eraseStyle (ParserOutputNormalizer.normalizeRawParameter lang i
      (RawParameter.obj (IFunctionParameter.toRawObj p))) = eraseStyle p := by
  obtain ⟨nm, vl, pos, isN, isD, infT, sty, ann, dfl, isVar⟩ := p
  simp only [paramAnnotOf] at h1 ⊢
  cases isVar with
  | none =>
      cases infT with
      | none =>
          have ha : ann = none := by simpa using h1 rfl
          subst ha
          simp only [ParserOutputNormalizer.normalizeRawParameter,
            IFunctionParameter.toRawObj, annotOf, paramAnnotOf, truthyFlag, jsNullish,
            eraseStyle]
          repeat' split
          all_goals simp_all [truthyFlag]
      | some t =>
          simp only [ParserOutputNormalizer.normalizeRawParameter,
            IFunctionParameter.toRawObj, annotOf, paramAnnotOf, truthyFlag, jsNullish,
            eraseStyle]
          repeat' split
          all_goals simp_all [truthyFlag]
  | some b =>
      cases b with
      | false => exact absurd rfl h2
      | true =>
          cases infT with
          | none =>
              have ha : ann = none := by simpa using h1 rfl
              subst ha
              simp only [ParserOutputNormalizer.normalizeRawParameter,
                IFunctionParameter.toRawObj, annotOf, paramAnnotOf, truthyFlag, jsNullish,
                eraseStyle]
              repeat' split
              all_goals simp_all [truthyFlag]
          | some t =>
              simp only [ParserOutputNormalizer.normalizeRawParameter,
                IFunctionParameter.toRawObj, annotOf, paramAnnotOf, truthyFlag, jsNullish,
                eraseStyle]
              repeat' split
              all_goals simp_all [truthyFlag]

theorem renorm_list (lang : SupportedLanguage) :
    ∀ (l : List IFunctionParameter) (i : Nat), (∀ p ∈ l, ParamInv p) →
      (mapWithIndex (fun j r => ParserOutputNormalizer.normalizeRawParameter lang j r) i
          (l.map (fun p => RawParameter.obj (IFunctionParameter.toRawObj p)))).map eraseStyle
        = l.map eraseStyle := by
  intro l
  induction l with
  | nil => intro i _; simp [mapWithIndex]
  | cons p ps ih =>
      intro i hinv
      simp only [List.map_cons, mapWithIndex]
      have hp := hinv p (List.mem_cons_self p ps)
      rw [renorm_eraseStyle p hp.1 hp.2 lang i,
        ih (i + 1) (fun q hq => hinv q (List.mem_cons_of_mem p hq))]

/-- C1 (amended): up to the `style` field, parameter normalization is
idempotent: re-normalizing a normalized list reproduces it field-for-field
except that the `style` of keyword-only, positional-only and Python
variadic-keyword records is not preserved and missing styles are filled in. -/
theorem normalizeParameters_idempotent_mod_style
    (ps : Option RawJson) (lang : SupportedLanguage) :
    (ParserOutputNormalizer.normalizeParameters
        (some (toRawJson (ParserOutputNormalizer.normalizeParameters ps lang))) lang).map eraseStyle
      = (ParserOutputNormalizer.normalizeParameters ps lang).map eraseStyle := by
  have h := renorm_list lang (ParserOutputNormalizer.normalizeParameters ps lang) 0
    (normalizeParameters_mem_inv ps lang)
  simpa [toRawJson, ParserOutputNormalizer.normalizeParameters] using h

/-- C1 counterexample: normalizing the result of normalizing a record that
carries only the keyword-only flag does not return an identical list: the
`style` field degrades from `keyword_only` to `positional`. -/
theorem normalizeParameters_not_idempotent :
    ParserOutputNormalizer.normalizeParameters
        (some (toRawJson (ParserOutputNormalizer.normalizeParameters c1RawInput
          SupportedLanguage.python))) SupportedLanguage.python
      ≠ ParserOutputNormalizer.normalizeParameters c1RawInput SupportedLanguage.python := by
  decide


open ParserOutputNormalizer

/-- C3: `normalizeParameters` branches on the raw shape it receives: a
positional/keywords object yields the positional values as unnamed entries at
positions 0..n-1 followed by one named NAMED-style entry per keyword; an
array is normalized record by record in order; any other input yields the
empty list. -/
theorem normalizeParameters_shape_dispatch (lang : SupportedLanguage) :
    (∀ (pos : List RawValue) (kws : List (String × RawValue)) (i : Nat) (v : RawValue),
        pos[i]? = some v →
        (normalizeParameters (some (RawJson.jobj (some pos) (some kws))) lang)[i]?
          = some { position := i, value := some (RawValue.normalize v), isNamed := false }) ∧
    (∀ (pos : List RawValue) (kws : List (String × RawValue)) (j : Nat) (nv : String × RawValue),
        kws[j]? = some nv →
        (normalizeParameters (some (RawJson.jobj (some pos) (some kws))) lang)[pos.length + j]?
          = some { name := some nv.1, position := pos.length + j,
                   value := some (RawValue.normalize nv.2), isNamed := true,
                   style := some ParameterStyle.named }) ∧
    (∀ (pos : List RawValue) (kws : List (String × RawValue)),
        (normalizeParameters (some (RawJson.jobj (some pos) (some kws))) lang).length
          = pos.length + kws.length) ∧
    (∀ (ps : List RawParameter) (i : Nat) (p : RawParameter),
        ps[i]? = some p →
        (normalizeParameters (some (RawJson.jarr ps)) lang)[i]?
          = some (normalizeRawParameter lang i p)) ∧
    (∀ (ps : List RawParameter),
        (normalizeParameters (some (RawJson.jarr ps)) lang).length = ps.length) ∧
    (∀ (kws : Option (List (String × RawValue))),
        normalizeParameters (some (RawJson.jobj none kws)) lang = []) ∧
    normalizeParameters (some RawJson.jnull) lang = [] ∧
    (∀ (b : Bool), normalizeParameters (some (RawJson.jother b)) lang = []) ∧
    normalizeParameters none lang = [] := by
  refine ⟨?_, ?_, ?_, ?_, ?_, ?_, rfl, fun b => rfl, rfl⟩
  · intro pos kws i v hv
    have hi : i < pos.length := by
      by_contra hge
      rw [List.getElem?_eq_none (by omega)] at hv
      exact Option.noConfusion hv
    simp only [normalizeParameters]
    rw [List.getElem?_append, if_pos (by rw [mapWithIndex_length]; exact hi),
      mapWithIndex_getElem?, hv]
    simp
  · intro pos kws j nv hv
    simp only [normalizeParameters]
    rw [List.getElem?_append, if_neg (by rw [mapWithIndex_length]; omega),
      mapWithIndex_length, mapWithIndex_getElem?]
    have hj : pos.length + j - pos.length = j := by omega
    rw [hj, hv]
    simp
  · intro pos kws
    simp [normalizeParameters, mapWithIndex_length]
  · intro ps i p hp
    simp only [normalizeParameters]
    rw [mapWithIndex_getElem?, hp]
    simp
  · intro ps
    simp [normalizeParameters, mapWithIndex_length]
  · intro kws
    cases kws <;> rfl

/-- Witness for C3 at concrete inputs of each shape. -/
theorem normalizeParameters_shape_dispatch_witness :
    (ParserOutputNormalizer.normalizeParameters
        (some (RawJson.jobj (some c3Pos) (some c3Kws))) SupportedLanguage.python)[0]?
      = some { position := 0, value := some "x", isNamed := false } ∧
    (ParserOutputNormalizer.normalizeParameters
        (some (RawJson.jobj (some c3Pos) (some c3Kws))) SupportedLanguage.python)[2]?
      = some { name := some "k", position := 2, value := some "v", isNamed := true,
               style := some ParameterStyle.named } ∧
    (ParserOutputNormalizer.normalizeParameters
        (some (RawJson.jarr c3Arr)) SupportedLanguage.python)[1]?
      = some (ParserOutputNormalizer.normalizeRawParameter SupportedLanguage.python 1
          (RawParameter.obj { is_named := some true })) ∧
    ParserOutputNormalizer.normalizeParameters (some RawJson.jnull) SupportedLanguage.python = [] := by
  have h := normalizeParameters_shape_dispatch SupportedLanguage.python
  exact ⟨h.1 c3Pos c3Kws 0 (RawValue.vstr "x") (by decide),
    h.2.1 c3Pos c3Kws 0 ("k", RawValue.vstr "v") (by decide),
    h.2.2.2.1 c3Arr 1 (RawParameter.obj { is_named := some true }) (by decide),
    h.2.2.2.2.2.2.1⟩

/-- C4: the parameter style is inferred from the boolean flags in priority
order: keyword-only first, then positional-only, then variadic (split by
language: Python kwarg-variadic vs positional-variadic, MATLAB vararg), then
named (MATLAB named parameters get the name-value-pair style), then
positional; a record matching a higher-priority flag never receives a
lower-priority style. -/
theorem parameter_style_priority (o : RawParamObj) (lang : SupportedLanguage) (i : Nat) :
    (kwOnlyFlag o = true →
      (normalizeRawParameter lang i (RawParameter.obj o)).style
        = some ParameterStyle.keyword_only) ∧
    (kwOnlyFlag o = false → posOnlyFlag o = true →
      (normalizeRawParameter lang i (RawParameter.obj o)).style
        = some ParameterStyle.positional_only) ∧
    (kwOnlyFlag o = false → posOnlyFlag o = false → varargFlag o = true →
      (normalizeRawParameter lang i (RawParameter.obj o)).isVariadic = some true ∧
      (lang = SupportedLanguage.python → kwargFlag o = true →
        (normalizeRawParameter lang i (RawParameter.obj o)).style
          = some ParameterStyle.variadic_keyword) ∧
      (lang = SupportedLanguage.python → kwargFlag o = false →
        (normalizeRawParameter lang i (RawParameter.obj o)).style
          = some ParameterStyle.variadic_positional) ∧
      (lang = SupportedLanguage.matlab →
        (normalizeRawParameter lang i (RawParameter.obj o)).style
          = some ParameterStyle.matlab_vararg)) ∧
    (kwOnlyFlag o = false → posOnlyFlag o = false → varargFlag o = false →
      (namedVal o = true → lang = SupportedLanguage.matlab →
        (normalizeRawParameter lang i (RawParameter.obj o)).style
          = some ParameterStyle.name_value_pair) ∧
      (namedVal o = true → lang ≠ SupportedLanguage.matlab →
        (normalizeRawParameter lang i (RawParameter.obj o)).style
          = some ParameterStyle.named) ∧
      (namedVal o = false →
        (normalizeRawParameter lang i (RawParameter.obj o)).style
          = some ParameterStyle.positional)) := by
  refine ⟨?_, ?_, ?_, ?_⟩
  · intro h1
    simp only [kwOnlyFlag] at h1
    simp [normalizeRawParameter, h1]
  · intro h1 h2
    simp only [kwOnlyFlag] at h1
    simp only [posOnlyFlag] at h2
    simp [normalizeRawParameter, h1, h2]
  · intro h1 h2 h3
    simp only [kwOnlyFlag] at h1
    simp only [posOnlyFlag] at h2
    simp only [varargFlag, Bool.or_assoc] at h3
    refine ⟨?_, ?_, ?_, ?_⟩
    · cases lang <;>
        simp [normalizeRawParameter, h1, h2, Bool.or_assoc, h3,
          apply_ite IFunctionParameter.isVariadic]
    · intro hl h4
      subst hl
      simp only [kwargFlag] at h4
      simp [normalizeRawParameter, h1, h2, Bool.or_assoc, h3, h4]
    · intro hl h4
      subst hl
      simp only [kwargFlag] at h4
      simp [normalizeRawParameter, h1, h2, Bool.or_assoc, h3, h4]
    · intro hl
      subst hl
      simp [normalizeRawParameter, h1, h2, Bool.or_assoc, h3]
  · intro h1 h2 h3
    simp only [kwOnlyFlag] at h1
    simp only [posOnlyFlag] at h2
    simp only [varargFlag, Bool.or_assoc] at h3
    refine ⟨?_, ?_, ?_⟩
    · intro hn hl
      subst hl
      simp only [namedVal] at hn
      simp [normalizeRawParameter, h1, h2, Bool.or_assoc, h3, hn]
    · intro hn hl
      simp only [namedVal] at hn
      cases lang with
      | matlab => exact absurd rfl hl
      | python => simp [normalizeRawParameter, h1, h2, Bool.or_assoc, h3, hn]
      | unknown => simp [normalizeRawParameter, h1, h2, Bool.or_assoc, h3, hn]
    · intro hn
      simp only [namedVal] at hn
      cases lang <;> simp [normalizeRawParameter, h1, h2, Bool.or_assoc, h3, hn]

/-- Witness for C4 at concrete flag combinations. -/
theorem parameter_style_priority_witness :
    (ParserOutputNormalizer.normalizeRawParameter SupportedLanguage.python 0
        (RawParameter.obj { is_vararg := some true, is_kwarg := some true })).style
      = some ParameterStyle.variadic_keyword ∧
    (ParserOutputNormalizer.normalizeRawParameter SupportedLanguage.matlab 0
        (RawParameter.obj { is_named := some true })).style
      = some ParameterStyle.name_value_pair :=
  ⟨((parameter_style_priority { is_vararg := some true, is_kwarg := some true }
      SupportedLanguage.python 0).2.2.1 (by decide) (by decide) (by decide)).2.1 rfl (by decide),
   ((parameter_style_priority { is_named := some true }
      SupportedLanguage.matlab 0).2.2.2 (by decide) (by decide) (by decide)).1 (by decide) rfl⟩


theorem normalizeCall_confidence (c : RawCall) (lang : SupportedLanguage) :
    (ParserOutputNormalizer.normalizeCall c lang).confidence = jsOrRat c.confidence 1 := by
  simp only [ParserOutputNormalizer.normalizeCall]
  split <;> rfl

theorem normalizeCall_lineNumber (c : RawCall) (lang : SupportedLanguage) :
    (ParserOutputNormalizer.normalizeCall c lang).lineNumber
      = jsOrNat c.line (jsOrNat c.lineNumber
          (match c.location with | some l => l.line | none => 0)) := by
  simp only [ParserOutputNormalizer.normalizeCall]
  split <;> rfl

theorem normalizeCall_columnNumber (c : RawCall) (lang : SupportedLanguage) :
    (ParserOutputNormalizer.normalizeCall c lang).columnNumber
      = jsOrNatO c.column (jsOrNatO c.columnNumber
          (match c.location with | some l => l.column | none => none)) := by
  simp only [ParserOutputNormalizer.normalizeCall]
  split <;> rfl

theorem normalizeCall_location (c : RawCall) (lang : SupportedLanguage) :
    (ParserOutputNormalizer.normalizeCall c lang).location
      = some { line := jsOrNat c.line (jsOrNat c.lineNumber
                  (match c.location with | some l => l.line | none => 0))
               column := jsOrNatO c.column (jsOrNatO c.columnNumber
                  (match c.location with | some l => l.column | none => none)) } := by
  simp only [ParserOutputNormalizer.normalizeCall]
  split <;> rfl

theorem normalizeVariable_scope (v : RawVariable) (lang : SupportedLanguage) :
    (ParserOutputNormalizer.normalizeVariable v lang).scope = jsOrStr v.scope "global" := rfl

/-- C7 counterexample: a raw call whose confidence field is present with
value 0 is not carried through: normalization replaces it by 1.0. -/
theorem confidence_zero_not_carried :
    c7RawCall.confidence = some 0 ∧
    (ParserOutputNormalizer.normalizeCall c7RawCall SupportedLanguage.python).confidence = 1 := by
  refine ⟨rfl, ?_⟩
  rw [normalizeCall_confidence]
  rfl

/-- C7 (amended): a missing confidence defaults to 1.0 and a missing scope
defaults to "global"; a present confidence is carried through when non-zero
and a present scope when non-empty (falsy present values are replaced by the
defaults as well). -/
theorem normalize_defaults_confidence_scope
    (call : RawCall) (v : RawVariable) (lang : SupportedLanguage) :
    (call.confidence = none →
      (ParserOutputNormalizer.normalizeCall call lang).confidence = 1) ∧
    (∀ q : ℚ, call.confidence = some q → q ≠ 0 →
      (ParserOutputNormalizer.normalizeCall call lang).confidence = q) ∧
    (v.scope = none →
      (ParserOutputNormalizer.normalizeVariable v lang).scope = "global") ∧
    (∀ s : String, v.scope = some s → s ≠ "" →
      (ParserOutputNormalizer.normalizeVariable v lang).scope = s) := by
  refine ⟨?_, ?_, ?_, ?_⟩
  · intro h
    rw [normalizeCall_confidence, h]
    rfl
  · intro q h hq
    rw [normalizeCall_confidence, h]
    simp [jsOrRat, hq]
  · intro h
    rw [normalizeVariable_scope, h]
    rfl
  · intro s h hs
    rw [normalizeVariable_scope, h]
    simp [jsOrStr, hs]

/-- Witness for the amended C7 at concrete calls and variables. -/
theorem normalize_defaults_confidence_scope_witness :
    (ParserOutputNormalizer.normalizeCall { name := "g" } SupportedLanguage.python).confidence = 1 ∧
    (ParserOutputNormalizer.normalizeCall { name := "g", confidence := some (1/2) }
        SupportedLanguage.python).confidence = 1/2 ∧
    (ParserOutputNormalizer.normalizeVariable { name := "x" } SupportedLanguage.python).scope
      = "global" ∧
    (ParserOutputNormalizer.normalizeVariable { name := "x", scope := some "local" }
        SupportedLanguage.python).scope = "local" :=
  ⟨(normalize_defaults_confidence_scope { name := "g" } { name := "x" }
      SupportedLanguage.python).1 rfl,
   (normalize_defaults_confidence_scope { name := "g", confidence := some (1/2) } { name := "x" }
      SupportedLanguage.python).2.1 (1/2) rfl (by norm_num),
   (normalize_defaults_confidence_scope { name := "g" } { name := "x" }
      SupportedLanguage.python).2.2.1 rfl,
   (normalize_defaults_confidence_scope { name := "g" } { name := "x", scope := some "local" }
      SupportedLanguage.python).2.2.2 "local" rfl (by simp)⟩

/-- C8 counterexample: the flat shape `{line: 5, column: 0}` and the nested
shape `{location: {line: 5, column: 0}}` do not produce the same canonical
ISourceLocation: the zero column is dropped from the flat shape but kept
from the nested one. -/
theorem flat_and_nested_location_disagree :
    (ParserOutputNormalizer.normalizeCall c8FlatCall SupportedLanguage.python).location
      ≠ (ParserOutputNormalizer.normalizeCall c8NestedCall SupportedLanguage.python).location ∧
    (ParserOutputNormalizer.normalizeCall c8FlatCall SupportedLanguage.python).columnNumber
      = none ∧
    (ParserOutputNormalizer.normalizeCall c8NestedCall SupportedLanguage.python).columnNumber
      = some 0 := by
  refine ⟨?_, ?_, ?_⟩
  · rw [normalizeCall_location, normalizeCall_location]
    decide
  · rw [normalizeCall_columnNumber]
    decide
  · rw [normalizeCall_columnNumber]
    decide

/-- C8 (amended): the normalized line number is the first truthy (non-zero)
of the flat `line`, the flat `lineNumber` and the nested `location.line`
(defaulting to 0), and the column likewise from `column`, `columnNumber`,
then `location.column`; the flat and nested shapes produce the same
canonical ISourceLocation whenever the line and column values are non-zero
(a zero flat column is dropped while a zero nested column is preserved). -/
theorem normalizeCall_location_normalization (call : RawCall) (lang : SupportedLanguage) :
    (∀ l : Nat, call.line = some l → l ≠ 0 →
      (ParserOutputNormalizer.normalizeCall call lang).lineNumber = l) ∧
    ((call.line = none ∨ call.line = some 0) → ∀ m : Nat, call.lineNumber = some m → m ≠ 0 →
      (ParserOutputNormalizer.normalizeCall call lang).lineNumber = m) ∧
    ((call.line = none ∨ call.line = some 0) →
      (call.lineNumber = none ∨ call.lineNumber = some 0) →
      ∀ loc : RawLocation, call.location = some loc →
        (ParserOutputNormalizer.normalizeCall call lang).lineNumber = loc.line) ∧
    ((call.line = none ∨ call.line = some 0) →
      (call.lineNumber = none ∨ call.lineNumber = some 0) → call.location = none →
        (ParserOutputNormalizer.normalizeCall call lang).lineNumber = 0) ∧
    (∀ c : Nat, call.column = some c → c ≠ 0 →
      (ParserOutputNormalizer.normalizeCall call lang).columnNumber = some c) ∧
    ((call.column = none ∨ call.column = some 0) → ∀ c : Nat, call.columnNumber = some c → c ≠ 0 →
      (ParserOutputNormalizer.normalizeCall call lang).columnNumber = some c) ∧
    ((call.column = none ∨ call.column = some 0) →
      (call.columnNumber = none ∨ call.columnNumber = some 0) →
      ∀ loc : RawLocation, call.location = some loc →
        (ParserOutputNormalizer.normalizeCall call lang).columnNumber = loc.column) ∧
    ((call.column = none ∨ call.column = some 0) →
      (call.columnNumber = none ∨ call.columnNumber = some 0) → call.location = none →
        (ParserOutputNormalizer.normalizeCall call lang).columnNumber = none) ∧
    (∀ (base : RawCall) (l c : Nat), l ≠ 0 → c ≠ 0 →
      (ParserOutputNormalizer.normalizeCall
          { base with
            line := some l
            column := some c
            lineNumber := none
            columnNumber := none
            location := none } lang).location
        = (ParserOutputNormalizer.normalizeCall
            { base with
              line := none
              column := none
              lineNumber := none
              columnNumber := none
              location := some { line := l, column := some c } } lang).location) := by
  refine ⟨?_, ?_, ?_, ?_, ?_, ?_, ?_, ?_, ?_⟩
  · intro l h hl
    rw [normalizeCall_lineNumber, h]
    simp [jsOrNat, hl]
  · intro h1 m h2 hm
    rw [normalizeCall_lineNumber, h2]
    rcases h1 with h1 | h1 <;> rw [h1] <;> simp [jsOrNat, hm]
  · intro h1 h2 loc h3
    rw [normalizeCall_lineNumber, h3]
    rcases h1 with h1 | h1 <;> rcases h2 with h2 | h2 <;> rw [h1, h2] <;> simp [jsOrNat]
  · intro h1 h2 h3
    rw [normalizeCall_lineNumber, h3]
    rcases h1 with h1 | h1 <;> rcases h2 with h2 | h2 <;> rw [h1, h2] <;> simp [jsOrNat]
  · intro c h hc
    rw [normalizeCall_columnNumber, h]
    simp [jsOrNatO, hc]
  · intro h1 c h2 hc
    rw [normalizeCall_columnNumber, h2]
    rcases h1 with h1 | h1 <;> rw [h1] <;> simp [jsOrNatO, hc]
  · intro h1 h2 loc h3
    rw [normalizeCall_columnNumber, h3]
    rcases h1 with h1 | h1 <;> rcases h2 with h2 | h2 <;> rw [h1, h2] <;> simp [jsOrNatO]
  · intro h1 h2 h3
    rw [normalizeCall_columnNumber, h3]
    rcases h1 with h1 | h1 <;> rcases h2 with h2 | h2 <;> rw [h1, h2] <;> simp [jsOrNatO]
  · intro base l c hl hc
    rw [normalizeCall_location, normalizeCall_location]
    simp [jsOrNat, jsOrNatO, hl, hc]

/-- Witness for the amended C8 at concrete calls. -/
theorem normalizeCall_location_normalization_witness :
    (ParserOutputNormalizer.normalizeCall { name := "f", line := some 5 }
        SupportedLanguage.python).lineNumber = 5 ∧
    (ParserOutputNormalizer.normalizeCall { name := "f", line := some 0, lineNumber := some 7 }
        SupportedLanguage.python).lineNumber = 7 ∧
    (ParserOutputNormalizer.normalizeCall { name := "f" }
        SupportedLanguage.python).lineNumber = 0 ∧
    (ParserOutputNormalizer.normalizeCall
        { name := "f"
          line := some 5
          column := some 3
          lineNumber := none
          columnNumber := none
          location := none }
        SupportedLanguage.python).location
      = (ParserOutputNormalizer.normalizeCall
          { name := "f"
            line := none
            column := none
            lineNumber := none
            columnNumber := none
            location := some { line := 5, column := some 3 } }
          SupportedLanguage.python).location :=
  ⟨(normalizeCall_location_normalization { name := "f", line := some 5 }
      SupportedLanguage.python).1 5 rfl (by decide),
   (normalizeCall_location_normalization { name := "f", line := some 0, lineNumber := some 7 }
      SupportedLanguage.python).2.1 (Or.inr rfl) 7 rfl (by decide),
   (normalizeCall_location_normalization { name := "f" }
      SupportedLanguage.python).2.2.2.1 (Or.inl rfl) (Or.inl rfl) rfl,
   (normalizeCall_location_normalization { name := "f" }
      SupportedLanguage.python).2.2.2.2.2.2.2.2 { name := "f" } 5 3 (by decide) (by decide)⟩

/-- C10: falsy coalescing applies to present-but-zero values: a confidence
of 0 is replaced by the default 1.0, and a flat line field of 0 is skipped
exactly as if it were absent. -/
theorem falsy_zero_defaults (call : RawCall) (lang : SupportedLanguage) :
    (call.confidence = some 0 →
      (ParserOutputNormalizer.normalizeCall call lang).confidence = 1) ∧
    (call.line = some 0 →
      (ParserOutputNormalizer.normalizeCall call lang).lineNumber
        = (ParserOutputNormalizer.normalizeCall { call with line := none } lang).lineNumber) := by
  constructor
  · intro h
    rw [normalizeCall_confidence, h]
    rfl
  · intro h
    rw [normalizeCall_lineNumber, normalizeCall_lineNumber, h]
    simp [jsOrNat]

/-- Witness for C10 at a concrete call. -/
theorem falsy_zero_defaults_witness :
    (ParserOutputNormalizer.normalizeCall
        { name := "h", confidence := some 0, line := some 0, lineNumber := some 9 }
        SupportedLanguage.python).confidence = 1 ∧
    (ParserOutputNormalizer.normalizeCall
        { name := "h", confidence := some 0, line := some 0, lineNumber := some 9 }
        SupportedLanguage.python).lineNumber
      = (ParserOutputNormalizer.normalizeCall
          { name := "h", confidence := some 0, line := none, lineNumber := some 9 }
          SupportedLanguage.python).lineNumber :=
  ⟨(falsy_zero_defaults
      { name := "h", confidence := some 0, line := some 0, lineNumber := some 9 }
      SupportedLanguage.python).1 rfl,
   (falsy_zero_defaults
      { name := "h", confidence := some 0, line := some 0, lineNumber := some 9 }
      SupportedLanguage.python).2 rfl⟩


/-- C9: for a file whose lower-cased extension is neither `.py` nor `.m`,
`parseFile` does not throw: it returns a minimal result whose language is
the bare extension with exactly one parse error saying the language is
unsupported, for any behavior of the underlying parsers; an error thrown by
a selected parser whose code is not PARSER_NOT_FOUND or UNSUPPORTED_LANGUAGE
is rethrown. -/
theorem parseFile_unsupported_and_rethrow
    (parse : SupportedLanguage → Except JsError RawResult) (filePath : String) :
    (jsToLower (extname filePath) ≠ ".py" → jsToLower (extname filePath) ≠ ".m" →
      CodeParserService.parseFile parse filePath = Except.ok
        { filePath := filePath
          language := jsSlice1 (extname filePath)
          functionCalls := []
          functionDefinitions := []
          imports := ImportsField.objs []
          dependencies := []
          parseErrors := ["Language " ++ jsSlice1 (extname filePath) ++ " is not supported"] }) ∧
    (∀ (lang : SupportedLanguage) (e : JsError),
      CodeParserFactory.getParserForFile filePath = Except.ok lang →
      parse lang = Except.error e →
      e.code ≠ some "PARSER_NOT_FOUND" → e.code ≠ some "UNSUPPORTED_LANGUAGE" →
      CodeParserService.parseFile parse filePath = Except.error e) := by
  constructor
  · intro h1 h2
    simp [CodeParserService.parseFile, CodeParserFactory.getParserForFile, h1, h2]
  · intro lang e hok hpe hc1 hc2
    simp [CodeParserService.parseFile, hok, hpe, hc1, hc2]

/-- Witness for C9: a `.txt` file yields the minimal unsupported-language
result; a parser error with code EPARSE on a `.py` file is rethrown. -/
theorem parseFile_unsupported_and_rethrow_witness :
    CodeParserService.parseFile c9ParseOk "notes.txt" = Except.ok
      { filePath := "notes.txt"
        language := "txt"
        functionCalls := []
        functionDefinitions := []
        imports := ImportsField.objs []
        dependencies := []
        parseErrors := ["Language txt is not supported"] } ∧
    CodeParserService.parseFile c9ParseFail "script.py" = Except.error c9Err :=
  ⟨(parseFile_unsupported_and_rethrow c9ParseOk "notes.txt").1
      (by decide) (by decide),
   (parseFile_unsupported_and_rethrow c9ParseFail "script.py").2
      SupportedLanguage.python c9Err rfl rfl (by decide) (by decide)⟩

/-- C6: every document the top-level schema accepts has a non-empty
`processingSteps` list and `sj_version` and `schema_version` both matching
the MAJOR.MINOR.PATCH pattern; contrapositively, any document violating one
of these is rejected. -/
theorem schema_accepts_versions_and_nonempty {π σ : Type}
    (piOk : π → Bool) (stepOk : σ → Bool) (d : RawDocument π σ)
    (h : signalJourneyAccepts piOk stepOk d = true) :
    (∃ steps, d.processingSteps = some steps ∧ steps ≠ []) ∧
    (∃ sv, d.sj_version = some sv ∧ semverPattern sv = true) ∧
    (∃ cv, d.schema_version = some cv ∧ semverPattern cv = true) := by
  simp only [signalJourneyAccepts, Bool.and_eq_true] at h
  obtain ⟨⟨⟨⟨h1, h2⟩, h3⟩, h4⟩, h5⟩ := h
  refine ⟨?_, ?_, ?_⟩
  · cases hs : d.processingSteps with
    | none => rw [hs] at h5; exact absurd h5 (by simp)
    | some steps =>
        rw [hs] at h5
        simp only [Bool.and_eq_true, decide_eq_true_eq] at h5
        refine ⟨steps, rfl, ?_⟩
        intro he
        rw [he] at h5
        simp at h5
  · cases hv : d.sj_version with
    | none => rw [hv] at h1; exact absurd h1 (by simp)
    | some sv => rw [hv] at h1; exact ⟨sv, rfl, h1⟩
  · cases hv : d.schema_version with
    | none => rw [hv] at h2; exact absurd h2 (by simp)
    | some cv =>
        rw [hv] at h2
        simp only [decide_eq_true_eq] at h2
        subst h2
        exact ⟨"0.2.0", rfl, by decide⟩

/-- Witness for C6 at a concrete accepted document. -/
theorem schema_accepts_versions_and_nonempty_witness :
    (∃ steps, c6Doc.processingSteps = some steps ∧ steps ≠ []) ∧
    (∃ sv, c6Doc.sj_version = some sv ∧ semverPattern sv = true) ∧
    (∃ cv, c6Doc.schema_version = some cv ∧ semverPattern cv = true) :=
  schema_accepts_versions_and_nonempty (fun _ => true) (fun _ => true) c6Doc (by decide)

theorem exists_min_image (f : String → Nat) :
    ∀ (l : List String), l ≠ [] → ∃ m ∈ l, ∀ x ∈ l, f m ≤ f x := by
  intro l
  induction l with
  | nil => intro h; exact absurd rfl h
  | cons a as ih =>
      intro _
      by_cases has : as = []
      · subst has
        exact ⟨a, by simp, by simp⟩
      · obtain ⟨m, hm, hmin⟩ := ih has
        by_cases hc : f a ≤ f m
        · refine ⟨a, List.mem_cons_self a as, ?_⟩
          intro x hx
          rcases List.mem_cons.mp hx with h | h
          · exact h ▸ le_refl _
          · exact le_trans hc (hmin x h)
        · refine ⟨m, List.mem_cons_of_mem a hm, ?_⟩
          intro x hx
          rcases List.mem_cons.mp hx with h | h
          · exact h ▸ le_of_not_le hc
          · exact hmin x h

theorem exists_unchosen (ids done : List String) (hid : ids.Nodup)
    (hlt : done.length < ids.length) :
    ∃ id ∈ ids, id ∉ done := by
  by_contra h
  push_neg at h
  have hsub2 : ids.toFinset ⊆ done.toFinset := by
    intro x hx
    simp only [List.mem_toFinset] at hx ⊢
    exact h x hx
  have h3 : ids.toFinset.card = ids.length := List.toFinset_card_of_nodup hid
  have h4 : done.toFinset.card ≤ done.length := done.toFinset_card_le
  have h5 := Finset.card_le_card hsub2
  omega

theorem selectNext_progress (steps : List ProcessingStep) (edges : List (String × String))
    (rank : String → Nat)
    (hrank : ∀ e ∈ edges, rank e.2 < rank e.1)
    (htarget : ∀ e ∈ edges, e.2 ∈ idsOf steps)
    (hid : (idsOf steps).Nodup)
    (done : List String) (hlt : done.length < steps.length) :
    ∃ sid, selectNext steps edges done = some sid := by
  have hlen : (idsOf steps).length = steps.length := by simp [idsOf]
  obtain ⟨id0, hid0, hid0n⟩ := exists_unchosen (idsOf steps) done hid (by omega)
  set R := (idsOf steps).filter (fun id => decide (id ∉ done)) with hR
  have hR0 : id0 ∈ R := by
    rw [hR, List.mem_filter]
    exact ⟨hid0, by simpa using hid0n⟩
  have hRne : R ≠ [] := fun he => by rw [he] at hR0; exact absurd hR0 (List.not_mem_nil id0)
  obtain ⟨m, hmR, hmin⟩ := exists_min_image rank R hRne
  have hmid : m ∈ idsOf steps := (List.mem_filter.mp hmR).1
  have hmnd : m ∉ done := by
    have := (List.mem_filter.mp hmR).2
    simpa using this
  have hdeps : depsDone edges done m = true := by
    rw [depsDone, List.all_eq_true]
    intro e he
    by_cases h1 : e.1 = m
    · by_cases h2 : e.2 ∈ done
      · simp [h2]
      · exfalso
        have he2 : e.2 ∈ R := by
          rw [hR, List.mem_filter]
          exact ⟨htarget e he, by simpa using h2⟩
        have hminle := hmin e.2 he2
        have hlt2 := hrank e he
        rw [h1] at hlt2
        omega
    · simp [h1]
  obtain ⟨s, hs, hsid⟩ := List.mem_map.mp hmid
  have hpred : (decide (s.stepId ∉ done) && depsDone edges done s.stepId) = true := by
    rw [hsid]
    simp [hmnd, hdeps]
  have hfind : (steps.find? (fun s => decide (s.stepId ∉ done) && depsDone edges done s.stepId)).isSome := by
    rw [List.find?_isSome]
    exact ⟨s, hs, hpred⟩
  cases hf : steps.find? (fun s => decide (s.stepId ∉ done) && depsDone edges done s.stepId) with
  | none => rw [hf] at hfind; exact absurd hfind (by simp)
  | some s' => exact ⟨s'.stepId, by unfold selectNext; rw [hf]; rfl⟩

theorem selectNext_sound (steps : List ProcessingStep) (edges : List (String × String))
    (done : List String) (sid : String) (h : selectNext steps edges done = some sid) :
    sid ∈ idsOf steps ∧ sid ∉ done ∧ depsDone edges done sid = true := by
  unfold selectNext at h
  cases hf : steps.find? (fun s => decide (s.stepId ∉ done) && depsDone edges done s.stepId) with
  | none => rw [hf] at h; exact absurd h (by simp)
  | some s =>
      rw [hf] at h
      simp only [Option.map_some'] at h
      obtain rfl : s.stepId = sid := by injection h
      have hmem := List.mem_of_find?_eq_some hf
      have hpred := List.find?_some hf
      simp only [Bool.and_eq_true, decide_eq_true_eq] at hpred
      exact ⟨List.mem_map.mpr ⟨s, hmem, rfl⟩, hpred.1, hpred.2⟩

theorem kahnLoop_completes (steps : List ProcessingStep) (edges : List (String × String))
    (rank : String → Nat)
    (hrank : ∀ e ∈ edges, rank e.2 < rank e.1)
    (htarget : ∀ e ∈ edges, e.2 ∈ idsOf steps)
    (hid : (idsOf steps).Nodup) :
    ∀ (fuel : Nat) (acc : List String), KahnInv steps edges acc →
      acc.length + fuel = steps.length →
      (kahnLoop steps edges fuel acc).length = steps.length ∧
        KahnInv steps edges (kahnLoop steps edges fuel acc) := by
  intro fuel
  induction fuel with
  | zero =>
      intro acc hinv hlen
      constructor
      · simpa [kahnLoop] using by omega
      · simpa [kahnLoop] using hinv
  | succ n ih =>
      intro acc hinv hlen
      obtain ⟨sid, hsel⟩ := selectNext_progress steps edges rank hrank htarget hid acc (by omega)
      obtain ⟨hsid_mem, hsid_nin, _⟩ := selectNext_sound steps edges acc sid hsel
      obtain ⟨hnd, hmem, htrace⟩ := hinv
      have hstep : kahnLoop steps edges (n + 1) acc = kahnLoop steps edges n (acc ++ [sid]) := by
        simp only [kahnLoop, hsel]
      rw [hstep]
      apply ih
      · refine ⟨?_, ?_, ?_⟩
        · rw [List.nodup_append]
          refine ⟨hnd, List.nodup_singleton sid, ?_⟩
          intro a ha hb
          rw [List.mem_singleton] at hb
          subst hb
          exact hsid_nin ha
        · intro x hx
          rcases List.mem_append.mp hx with h | h
          · exact hmem x h
          · rw [List.mem_singleton] at h
            subst h
            exact hsid_mem
        · intro k hk
          rw [List.length_append, List.length_singleton] at hk
          by_cases hcase : k < acc.length
          · have ht : (acc ++ [sid]).take k = acc.take k := by
              rw [List.take_append_of_le_length (by omega)]
            have hg : (acc ++ [sid])[k]? = acc[k]? := by
              rw [List.getElem?_append]
              rw [if_pos hcase]
            rw [ht, hg]
            exact htrace k hcase
          · have hkeq : k = acc.length := by omega
            subst hkeq
            have ht : (acc ++ [sid]).take acc.length = acc := by
              rw [List.take_append_of_le_length (le_refl _), List.take_length]
            have hg : (acc ++ [sid])[acc.length]? = some sid := by
              rw [List.getElem?_append]
              rw [if_neg (by omega)]
              simp
            rw [ht, hg, hsel]
      · rw [List.length_append, List.length_singleton]
        omega



theorem topoOrder_of_acyclic (steps : List ProcessingStep) (edges : List (String × String))
    (rank : String → Nat)
    (hrank : ∀ e ∈ edges, rank e.2 < rank e.1)
    (htarget : ∀ e ∈ edges, e.2 ∈ idsOf steps)
    (hid : (idsOf steps).Nodup) :
    ∃ ord, topoOrder steps edges = some ord ∧ ord.length = steps.length ∧
      KahnInv steps edges ord := by
  have h0 : KahnInv steps edges [] := ⟨List.nodup_nil, by simp, by simp⟩
  obtain ⟨hlen, hinv⟩ := kahnLoop_completes steps edges rank hrank htarget hid
    steps.length [] h0 (by simp)
  refine ⟨kahnLoop steps edges steps.length [], ?_, hlen, hinv⟩
  unfold topoOrder
  rw [if_pos hlen]

theorem kahnInv_perm (steps : List ProcessingStep) (edges : List (String × String))
    (acc : List String) (hinv : KahnInv steps edges acc)
    (hlen : acc.length = steps.length) (hid : (idsOf steps).Nodup) :
    acc.Perm (idsOf steps) := by
  obtain ⟨hnd, hmem, _⟩ := hinv
  have hsub : acc.toFinset ⊆ (idsOf steps).toFinset := by
    intro x hx
    simp only [List.mem_toFinset] at hx ⊢
    exact hmem x hx
  have hlen2 : (idsOf steps).length = steps.length := by simp [idsOf]
  have hc1 : acc.toFinset.card = acc.length := List.toFinset_card_of_nodup hnd
  have hc2 : (idsOf steps).toFinset.card = (idsOf steps).length :=
    List.toFinset_card_of_nodup hid
  have heq : acc.toFinset = (idsOf steps).toFinset :=
    Finset.eq_of_subset_of_card_le hsub (by omega)
  exact List.perm_of_nodup_nodup_toFinset_eq hnd hid heq

theorem kahnInv_edge_order (steps : List ProcessingStep) (edges : List (String × String))
    (acc : List String) (hinv : KahnInv steps edges acc) :
    ∀ e ∈ edges, ∀ i j : Nat, i < acc.length → j < acc.length →
      acc[i]? = some e.1 → acc[j]? = some e.2 → j < i := by
  obtain ⟨hnd, _, htrace⟩ := hinv
  intro e he i j hi hj hgi hgj
  have hsel : selectNext steps edges (acc.take i) = some e.1 := by
    rw [htrace i hi, hgi]
  obtain ⟨_, _, hdeps⟩ := selectNext_sound steps edges (acc.take i) e.1 hsel
  rw [depsDone, List.all_eq_true] at hdeps
  have hme := hdeps e he
  simp only [Bool.or_eq_true, decide_eq_true_eq] at hme
  rcases hme with hme | hme
  · exact absurd rfl hme
  · obtain ⟨n, hn, hgn⟩ := List.mem_iff_getElem.mp hme
    rw [List.length_take] at hn
    have hn2 : n < i := by omega
    have hnb : n < acc.length := by omega
    have hacc : acc[n] = e.2 := by
      rw [← hgn]
      exact (List.getElem_take acc).symm
    have haccj : acc[j] = e.2 := by
      have h2 := hgj
      rw [List.getElem?_eq_getElem hj] at h2
      injection h2
    have hnj : n = j := (List.Nodup.getElem_inj_iff hnd).mp (by rw [hacc, haccj])
    omega



theorem mem_dependsOnPairs (e : String × String) :
    ∀ steps : List ProcessingStep,
      e ∈ dependsOnPairs steps ↔ ∃ s ∈ steps, s.stepId = e.1 ∧ e.2 ∈ s.dependsOn := by
  intro steps
  induction steps with
  | nil => simp [dependsOnPairs]
  | cons s ss ih =>
      simp only [dependsOnPairs, List.mem_append, List.mem_map, ih, List.mem_cons]
      constructor
      · intro h
        rcases h with ⟨d, hd, he⟩ | ⟨t, ht, h1, h2⟩
        · exact ⟨s, Or.inl rfl, by rw [← he], by rw [← he]; exact hd⟩
        · exact ⟨t, Or.inr ht, h1, h2⟩
      · intro ⟨t, ht, h1, h2⟩
        rcases ht with rfl | ht
        · refine Or.inl ⟨e.2, h2, ?_⟩
          rw [h1]
        · exact Or.inr ⟨t, ht, h1, h2⟩

theorem dependsOnErrors_nil (steps : List ProcessingStep)
    (hdep : ∀ s ∈ steps, ∀ d ∈ s.dependsOn, ∃ t ∈ steps, t.stepId = d) :
    dependsOnErrors steps = [] := by
  rw [dependsOnErrors, List.filterMap_eq_nil_iff]
  intro e he
  obtain ⟨s, hs, hsid, hd⟩ := (mem_dependsOnPairs e steps).mp he
  obtain ⟨t, ht, htid⟩ := hdep s hs e.2 hd
  have hfind : (findStep steps e.2).isSome := by
    rw [findStep, List.find?_isSome]
    exact ⟨t, ht, by simp [htid]⟩
  simp [hfind]

theorem resolveRef_ok (steps : List ProcessingStep) (p : String × String × String)
    (t : ProcessingStep) (htf : findStep steps p.2.1 = some t)
    (hlen : (t.outputTargets.filter (outputMatches p.2.2)).length = 1) :
    resolveRef steps p.1 p.2.1 p.2.2 = Except.ok (p.1, p.2.1) := by
  simp only [resolveRef, htf, hlen]

theorem resolveErrors_nil (steps : List ProcessingStep)
    (hres : ∀ p ∈ prevRefPairs steps, ∃ t ∈ steps, findStep steps p.2.1 = some t ∧
      (t.outputTargets.filter (outputMatches p.2.2)).length = 1) :
    resolveErrors steps = [] := by
  rw [resolveErrors, List.filterMap_eq_nil_iff]
  intro p hp
  obtain ⟨t, _, htf, hlen⟩ := hres p hp
  rw [resolveRef_ok steps p t htf hlen]

theorem resolvedEdges_target (steps : List ProcessingStep) :
    ∀ e ∈ resolvedEdges steps, (findStep steps e.2).isSome := by
  intro e he
  obtain ⟨p, _, hpe⟩ := List.mem_filterMap.mp he
  cases hr : resolveRef steps p.1 p.2.1 p.2.2 with
  | error err => rw [hr] at hpe; exact absurd hpe (by simp)
  | ok e' =>
      rw [hr] at hpe
      simp only [Option.some_inj] at hpe
      subst hpe
      unfold resolveRef at hr
      cases hf : findStep steps p.2.1 with
      | none => simp [hf] at hr
      | some t =>
          rcases hlen : (t.outputTargets.filter (outputMatches p.2.2)).length with _ | n
          · simp [hf, hlen] at hr
          · cases n with
            | zero =>
                simp only [hf, hlen] at hr
                injection hr with hr2
                rw [← hr2]
                simp [hf]
            | succ m => simp [hf, hlen] at hr

theorem sortEdges_eq_allEdges (steps : List ProcessingStep)
    (hdep : ∀ s ∈ steps, ∀ d ∈ s.dependsOn, ∃ t ∈ steps, t.stepId = d) :
    sortEdges steps = allEdges steps := by
  rw [sortEdges, List.filter_eq_self]
  intro e he
  rcases List.mem_append.mp he with h | h
  · obtain ⟨s, hs, _, hd⟩ := (mem_dependsOnPairs e steps).mp h
    obtain ⟨t, ht, htid⟩ := hdep s hs e.2 hd
    have hfind : (findStep steps e.2).isSome := by
      rw [findStep, List.find?_isSome]
      exact ⟨t, ht, by simp [htid]⟩
    simpa using hfind
  · simpa using resolvedEdges_target steps e h



/-- C2: for every document whose step ids are unique, whose dependsOn
entries and previousStepOutput references all name an existing step and a
uniquely matching output, and whose dependency-edge union is acyclic,
`validate` returns valid with an execution order that is a permutation of
the step ids placing every dependency before its dependent, each position
being the document-order-first step whose dependencies are all already
placed (the tie-breaking rule); and for every document, `executionOrder` is
null whenever `valid` is false. -/
theorem validate_topological (doc : PipelineDocument)
    (hnodup : (doc.processingSteps.map (fun s => s.stepId)).Nodup)
    (hdep : ∀ s ∈ doc.processingSteps, ∀ d ∈ s.dependsOn,
      ∃ t ∈ doc.processingSteps, t.stepId = d)
    (hres : ∀ p ∈ prevRefPairs doc.processingSteps, ∃ t ∈ doc.processingSteps,
      findStep doc.processingSteps p.2.1 = some t ∧
      (t.outputTargets.filter (outputMatches p.2.2)).length = 1)
    (hacyc : AcyclicEdges (allEdges doc.processingSteps)) :
    (validate doc).valid = true ∧
    (∃ ord, (validate doc).executionOrder = some ord ∧
      ord.Perm (doc.processingSteps.map (fun s => s.stepId)) ∧
      (∀ e ∈ allEdges doc.processingSteps, ∀ i j : Nat, i < ord.length → j < ord.length →
        ord[i]? = some e.1 → ord[j]? = some e.2 → j < i) ∧
      (∀ k : Nat, k < ord.length →
        selectNext doc.processingSteps (sortEdges doc.processingSteps) (ord.take k) = ord[k]?)) ∧
    (∀ d : PipelineDocument, (validate d).valid = false → (validate d).executionOrder = none) := by
  obtain ⟨rank, hrank⟩ := hacyc
  have hid : (idsOf doc.processingSteps).Nodup := hnodup
  have hrank2 : ∀ e ∈ sortEdges doc.processingSteps, rank e.2 < rank e.1 := by
    intro e he
    exact hrank e (List.mem_of_mem_filter he)
  have htarget : ∀ e ∈ sortEdges doc.processingSteps, e.2 ∈ idsOf doc.processingSteps := by
    intro e he
    have hp := List.of_mem_filter he
    cases hf : findStep doc.processingSteps e.2 with
    | none => rw [hf] at hp; simp at hp
    | some t =>
        have hmem := List.mem_of_find?_eq_some hf
        have hpred := List.find?_some hf
        simp only [decide_eq_true_eq] at hpred
        exact List.mem_map.mpr ⟨t, hmem, hpred⟩
  obtain ⟨ord, htopo, hlen, hinv⟩ := topoOrder_of_acyclic doc.processingSteps
    (sortEdges doc.processingSteps) rank hrank2 htarget hid
  have herr1 : dependsOnErrors doc.processingSteps = [] :=
    dependsOnErrors_nil doc.processingSteps hdep
  have herr2 : resolveErrors doc.processingSteps = [] :=
    resolveErrors_nil doc.processingSteps hres
  refine ⟨?_, ⟨ord, ?_, ?_, ?_, ?_⟩, ?_⟩
  · simp [validate, herr1, herr2, htopo]
  · simp [validate, herr1, herr2, htopo]
  · exact kahnInv_perm doc.processingSteps (sortEdges doc.processingSteps) ord hinv hlen hid
  · intro e he i j hi hj hgi hgj
    have he2 : e ∈ sortEdges doc.processingSteps := by
      rw [sortEdges_eq_allEdges doc.processingSteps hdep]
      exact he
    exact kahnInv_edge_order doc.processingSteps (sortEdges doc.processingSteps) ord hinv
      e he2 i j hi hj hgi hgj
  · intro k hk
    exact hinv.2.2 k hk
  · intro d hd
    simp only [validate] at hd ⊢
    rw [if_neg (fun h => by rw [hd] at h; exact Bool.false_ne_true h)]



/-- Witness for C2 at the concrete three-step chain. -/
theorem validate_topological_witness :
    (validate c2Doc).valid = true ∧ (validate c2Doc).executionOrder ≠ none := by
  have h := validate_topological c2Doc (by decide) (by decide) (by decide)
    ⟨fun s => if s = "load" then 0 else if s = "filter" then 1 else 2, by decide⟩
  refine ⟨h.1, ?_⟩
  obtain ⟨ord, hord, _⟩ := h.2.1
  rw [hord]
  simp

theorem length_filter_mono {α : Type} (l : List α) (p q : α → Bool)
    (h : ∀ x, p x = true → q x = true) :
    (l.filter p).length ≤ (l.filter q).length := by
  induction l with
  | nil => simp
  | cons a as ih =>
      by_cases hp : p a = true
      · rw [List.filter_cons_of_pos hp, List.filter_cons_of_pos (h a hp)]
        simpa using ih
      · rw [List.filter_cons_of_neg (by simpa using hp)]
        by_cases hq : q a = true
        · rw [List.filter_cons_of_pos hq]
          simp only [List.length_cons]
          omega
        · rw [List.filter_cons_of_neg (by simpa using hq)]
          exact ih

theorem prevRefPairs_intro (s : ProcessingStep) (r : String × String) (hr : r ∈ stepPrevRefs s) :
    ∀ steps : List ProcessingStep, s ∈ steps → (s.stepId, r) ∈ prevRefPairs steps := by
  intro steps
  induction steps with
  | nil => intro hs; cases hs
  | cons a as ih =>
      intro hs
      rcases List.mem_cons.mp hs with rfl | hs2
      · exact List.mem_append_left _ (List.mem_map.mpr ⟨r, hr, rfl⟩)
      · exact List.mem_append_right _ (ih hs2)

/-- C5: when a referenced step carries two or more output targets sharing
one identical description label, a previousStepOutput reference to that
label resolves to an AmbiguousOutputReference error which appears in the
resolver's error list and invalidates the document; the resolver never
silently returns an edge for such a reference. -/
theorem ambiguous_output_reference (doc : PipelineDocument) (st : ProcessingStep)
    (inp : InputSource) (t : ProcessingStep) (tid label : String)
    (hstep : st ∈ doc.processingSteps)
    (hin : inp ∈ st.inputSources)
    (hsrc : inp.sourceType = "previousStepOutput")
    (hsid : inp.stepId = some tid)
    (hoid : inp.outputId = some label)
    (htarget : findStep doc.processingSteps tid = some t)
    (hdup : 2 ≤ (t.outputTargets.filter (fun o => decide (o.description = label))).length) :
    resolveRef doc.processingSteps st.stepId tid label
      = Except.error { kind := ErrorKind.AmbiguousOutputReference, stepId := some st.stepId,
                       detail := tid ++ ":" ++ label } ∧
    ({ kind := ErrorKind.AmbiguousOutputReference, stepId := some st.stepId,
       detail := tid ++ ":" ++ label } : ErrorRecord) ∈ resolveErrors doc.processingSteps ∧
    (validate doc).valid = false := by
  have hmono : (t.outputTargets.filter (fun o => decide (o.description = label))).length
      ≤ (t.outputTargets.filter (outputMatches label)).length := by
    apply length_filter_mono
    intro o ho
    simp only [decide_eq_true_eq] at ho
    simp [outputMatches, ho]
  obtain ⟨k, hk⟩ : ∃ k, (t.outputTargets.filter (outputMatches label)).length = k + 2 :=
    ⟨(t.outputTargets.filter (outputMatches label)).length - 2, by omega⟩
  have hresref : resolveRef doc.processingSteps st.stepId tid label
      = Except.error { kind := ErrorKind.AmbiguousOutputReference, stepId := some st.stepId,
                       detail := tid ++ ":" ++ label } := by
    simp only [resolveRef, htarget, hk]
  have hpair : (st.stepId, tid, label) ∈ prevRefPairs doc.processingSteps := by
    apply prevRefPairs_intro st (tid, label) ?_ doc.processingSteps hstep
    rw [stepPrevRefs]
    apply List.mem_filterMap.mpr
    refine ⟨inp, hin, ?_⟩
    rw [if_pos hsrc, hsid, hoid]
    rfl
  have hmem : ({ kind := ErrorKind.AmbiguousOutputReference
                 stepId := some st.stepId
                 detail := tid ++ ":" ++ label } : ErrorRecord)
      ∈ resolveErrors doc.processingSteps := by
    rw [resolveErrors]
    apply List.mem_filterMap.mpr
    refine ⟨(st.stepId, tid, label), hpair, ?_⟩
    simp [hresref]
  refine ⟨hresref, hmem, ?_⟩
  cases hre : resolveErrors doc.processingSteps with
  | nil => rw [hre] at hmem; cases hmem
  | cons x xs => simp [validate, hre]

/-- Witness for C5 at the concrete duplicated-label document. -/
theorem ambiguous_output_reference_witness :
    ({ kind := ErrorKind.AmbiguousOutputReference, stepId := some "b", detail := "a:out" }
        : ErrorRecord) ∈ resolveErrors c5Doc.processingSteps ∧
    (validate c5Doc).valid = false := by
  have h := ambiguous_output_reference c5Doc
    { stepId := "b"
      inputSources := [{ sourceType := "previousStepOutput", stepId := some "a",
                         outputId := some "out" }]
      dependsOn := ["a"] }
    { sourceType := "previousStepOutput", stepId := some "a", outputId := some "out" }
    { stepId := "a"
      outputTargets := [{ targetType := "in-memory", description := "out" },
                        { targetType := "file", description := "out" }] }
    "a" "out" (by decide) (by decide) rfl rfl rfl (by decide) (by decide)
  exact ⟨h.2.1, h.2.2⟩

end SignalJourney
